import Mathlib

/-!
# openvpn_auth_client.c : the authentication exchange

A shallow embedding of `src/c/openvpn_auth_client.c`.  A C `char` is a byte,
modelled as a `Nat`; a character buffer is a `List Nat`; the C string it holds
is the run of bytes before the first NUL.  System calls and the peer are
modelled by an explicit environment, and every function returns the log
messages and system calls it issued next to its C return value.  The alarm that
bounds the exchange ends the process from outside; its handler `sigh_alrm` is
modelled on its own, and the runs described here are those it does not cut
short.
-/

set_option autoImplicit false

namespace OpenvpnAuth

/-! ## Constants of the source -/

def CRED_BUF_SIZE : Nat := 512
def GEN_BUF_SIZE : Nat := 1024
def CONF_FILE_MAXLINES : Nat := 1000
def DEFAULT_PORT : Int := 1559
def DEFAULT_AUTH_TIMEOUT : Int := 10

/-- The bytes of a string literal of the source. -/
def bytes (s : String) : List Nat := s.toList.map Char.toNat

def DEFAULT_HOSTNAME : List Nat := bytes "127.0.0.1"

/-- The byte that ends a C string. -/
def NUL : Nat := 0
/-- Line feed. -/
def LF : Nat := 10
/-- Form feed. -/
def FF : Nat := 12
/-- Carriage return. -/
def CR : Nat := 13
/-- The byte of the slash character. -/
def SLASH : Nat := 47

/-! ## The C library functions the source calls -/

/-- The C string held in a buffer: the bytes before the first NUL.  A buffer
without any NUL is read to its end (what lies behind it in memory is not
modelled). -/
def cstr (buf : List Nat) : List Nat := buf.takeWhile (fun c => c != NUL)

/-- `strlen(buf)`. -/
def strlen (buf : List Nat) : Nat := (cstr buf).length

/-- `strncpy(dst, src, n)`: the first `n` bytes of `dst` become the C string of
`src` cut at `n` bytes and padded with NUL up to `n` bytes; no NUL is written
when the string has `n` bytes or more. -/
def strncpy (dst src : List Nat) (n : Nat) : List Nat :=
  (cstr src).take n ++ List.replicate (n - (cstr src).length) NUL ++ dst.drop n

/-- `memset(buf, 0, n)` on a fresh buffer of `n` bytes. -/
def zeroed (n : Nat) : List Nat := List.replicate n NUL

/-- `tolower` in the C locale. -/
def tolower (c : Nat) : Nat := if 65 ≤ c ∧ c ≤ 90 then c + 32 else c

/-- `strcasecmp(a, b)` on two C strings: the difference of the first pair of
bytes that differ after `tolower`, 0 when there is none. -/
def strcasecmp : List Nat → List Nat → Int
  | [], [] => 0
  | [], b :: _ => 0 - (tolower b : Int)
  | a :: _, [] => (tolower a : Int)
  | a :: as, b :: bs =>
    if tolower a = tolower b then strcasecmp as bs else (tolower a : Int) - (tolower b : Int)

/-- `strcmp(a, b) == 0` on two C strings. -/
def streq (a b : List Nat) : Bool := cstr a == cstr b

/-- Decimal digits of a natural number, most significant first; the first
argument bounds the number of digits. -/
def decDigits : Nat → Nat → List Nat
  | 0, _ => []
  | f + 1, n => if n < 10 then [48 + n] else decDigits f (n / 10) ++ [48 + n % 10]

/-- The text `printf` writes for `%d`. -/
def fmt_d (i : Int) : List Nat :=
  if i < 0 then 45 :: decDigits (i.natAbs + 1) i.natAbs else decDigits (i.natAbs + 1) i.natAbs

/-- `isspace` in the C locale. -/
def isspace (c : Nat) : Bool := c == 32 || (9 ≤ c && c ≤ 13)

/-- `isdigit`. -/
def isdigit (c : Nat) : Bool := 48 ≤ c && c ≤ 57

/-- The digit loop of `atoi`: it stops at the first byte that is not a digit. -/
def atoiDigits : List Nat → Nat → Nat
  | [], acc => acc
  | c :: cs, acc => if isdigit c then atoiDigits cs (acc * 10 + (c - 48)) else acc

/-- `atoi(s)`: leading white space, an optional sign, then digits.  Values
outside the range of `int` are not wrapped. -/
def atoi (s : List Nat) : Int :=
  let r := (cstr s).dropWhile isspace
  if r.head? = some 45 then 0 - (atoiDigits r.tail 0 : Int)
  else if r.head? = some 43 then (atoiDigits r.tail 0 : Int)
  else (atoiDigits r 0 : Int)

/-- A byte stream being read: the bytes still to come, and whether the stream
ends with a read error (`err = true`) or with end of file. -/
structure Stream where
  bytes : List Nat
  err : Bool
  deriving DecidableEq, Repr

/-- The bytes one `fgets` call with room for `k` bytes takes from the input: it
stops after a line feed, after `k` bytes, or where the input ends. -/
def fgetsBytes : Nat → List Nat → List Nat
  | 0, _ => []
  | _ + 1, [] => []
  | k + 1, c :: cs => if c = LF then [c] else c :: fgetsBytes k cs

/-- `fgets(buf, n, stream)` for `n ≥ 2`: the buffer it fills (the bytes taken,
then a NUL) or `none` for a NULL return, and the stream left behind.  NULL is
returned when the stream ends before any byte, or when a read error ends the
stream before the line is complete. -/
def fgets (n : Nat) (s : Stream) : Option (List Nat) × Stream :=
  let line := fgetsBytes (n - 1) s.bytes
  let rest : Stream := ⟨s.bytes.drop line.length, s.err⟩
  let hitEnd := rest.bytes.isEmpty && decide (line.length < n - 1) && (line.getLast? != some LF)
  if line.isEmpty || (hitEnd && s.err) then (none, rest) else (some (line ++ [NUL]), rest)

/-! ## chomp -/

/-- The test of the loop in `chomp`. -/
def isTrailer (c : Nat) : Bool := c == FF || c == CR || c == LF

/-- The loop of `chomp`; the first argument is `i + 1`, so the loop ends when
it is 0 (`i < 0`) or when `str[i]` is none of the three bytes. -/
def chompLoop : Nat → List Nat → List Nat
  | 0, str => str
  | i + 1, str => if isTrailer (str.getD i NUL) then chompLoop i (str.set i NUL) else str

/-- `chomp(str)`, the buffer after the call. -/
def chomp (str : List Nat) : List Nat := chompLoop (strlen str) str

/-! ## Configuration, credentials and the environment -/

/-- The global configuration variables `hostname`, `port`, `timeout`, `verbose`. -/
structure Config where
  hostname : List Nat
  port : Int
  timeout : Int
  verbose : Int
  deriving DecidableEq, Repr

/-- The authentication data structure, `struct auth`.  `username` and `password` are the
two buffers of `CRED_BUF_SIZE` bytes; `common_name` and `untrusted_ip` are the
memory their pointers refer to. -/
structure auth where
  username : List Nat
  password : List Nat
  common_name : List Nat
  untrusted_ip : List Nat
  untrusted_port : Int
  deriving DecidableEq, Repr

/-- The entry `gethostbyname` returns. -/
structure HostEnt where
  h_addrtype : Int
  h_addr : Nat
  deriving DecidableEq, Repr

/-- What the operating system and the peer do during one run.  Every call is
made at most once per run, so one outcome per call describes a run. -/
structure Env where
  /-- The result of `socket(...)`: a descriptor, negative on failure. -/
  socket : Int
  /-- The resolver. -/
  gethostbyname : List Nat → Option HostEnt
  /-- The result of `bind` on a valid descriptor. -/
  bind : Int
  /-- The result of `connect` on a valid descriptor. -/
  connect : Int
  /-- Whether `fdopen` on a valid descriptor succeeds. -/
  fdopen : Bool
  /-- The byte stream the peer sends back on the connection. -/
  reply : Stream

/-- `bind(fd, ...)`: fails on an invalid descriptor. -/
def sys_bind (env : Env) (fd : Int) : Int := if fd < 0 then -1 else env.bind

/-- `connect(fd, ...)`: fails on an invalid descriptor. -/
def sys_connect (env : Env) (fd : Int) : Int := if fd < 0 then -1 else env.connect

/-- `fdopen(fd, "r+")`: fails on an invalid descriptor. -/
def sys_fdopen (env : Env) (fd : Int) : Bool := if fd < 0 then false else env.fdopen

/-- The system calls of `srv_connect` and `srv_disconnect`, with the arguments
that matter. -/
inductive Sys where
  | socket_unix
  | socket_inet
  | gethostbyname (name : List Nat)
  | bind (fd : Int)
  | connect_unix (fd : Int) (sun_path : List Nat) (len : Nat)
  | connect_inet (fd : Int) (family : Int) (addr : Nat) (port : Int)
  | fdopen (fd : Int)
  | fclose (fd : Int)
  | close (fd : Int)
  deriving DecidableEq, Repr

/-- The `log_msg` calls of `srv_connect` and `authenticate`, one constructor per
format string, with the string arguments (the `errno` text is left out). -/
inductive LogMsg where
  | connecting_unix (hostname : List Nat)
  | unable_create_unix_socket
  | unable_connect_unix (hostname : List Nat)
  | connecting_tcp (hostname : List Nat) (port : Int)
  | unable_resolve (hostname : List Nat)
  | unable_create_inet_socket
  | unable_bind (hostname : List Nat) (port : Int)
  | unable_connect_tcp (hostname : List Nat) (port : Int)
  | unable_create_stream
  | no_response
  | invalid_response (read_buf : List Nat)
  | auth_failed (username : List Nat) (read_buf : List Nat)
  | auth_succeeded (username : List Nat)
  | timeout_exceeded (timeout : Int)
  | unable_open_credentials (file : List Nat)
  | unable_read_username
  | unable_read_password
  | common_name_not_set
  | untrusted_ip_not_set
  | untrusted_port_not_set
  | unspecified_config_file
  | unknown_parameter (var : List Nat) (file : List Nat) (line : Nat)
  deriving DecidableEq, Repr

/-! ## srv_connect -/

/-- What `srv_connect` hands back: the descriptor wrapped into the stream
(`none` for a NULL return), the messages logged and the system calls made. -/
structure Conn where
  sock : Option Int
  log : List LogMsg
  trace : List Sys
  deriving DecidableEq, Repr

/-- The last step of `srv_connect`: wrap the connected socket with `fdopen`. -/
def srv_connect_fdopen (env : Env) (server_socket : Int) (log : List LogMsg)
    (trace : List Sys) : Conn :=
  if sys_fdopen env server_socket then
    ⟨some server_socket, log, trace ++ [Sys.fdopen server_socket]⟩
  else
    ⟨none, log ++ [LogMsg.unable_create_stream],
      trace ++ [Sys.fdopen server_socket, Sys.close server_socket]⟩

/-- `srv_connect()`.  A failing `socket` or `bind` is logged and the function
goes on; a failing `gethostbyname`, `connect` or `fdopen` returns NULL.
`sun_path` is a local array of 108 bytes, all of which `strncpy` writes; `len`
is `sizeof(sun_family)`, 2, plus `strlen(sun_path)`.  The port passed to
`connect` is `htons(port)`, the port modulo 65536. -/
def srv_connect (cfg : Config) (env : Env) : Conn :=
  if cfg.hostname.headD NUL = SLASH then
    let server_socket := env.socket
    let log1 := [LogMsg.connecting_unix (cstr cfg.hostname)] ++
      (if server_socket < 0 then [LogMsg.unable_create_unix_socket] else [])
    let sun_path := strncpy (zeroed 108) cfg.hostname 108
    let len := 2 + strlen sun_path
    let trace1 := [Sys.socket_unix, Sys.connect_unix server_socket sun_path len]
    if sys_connect env server_socket < 0 then
      ⟨none, log1 ++ [LogMsg.unable_connect_unix (cstr cfg.hostname)],
        trace1 ++ [Sys.close server_socket]⟩
    else
      srv_connect_fdopen env server_socket log1 trace1
  else
    let log0 := [LogMsg.connecting_tcp (cstr cfg.hostname) cfg.port]
    match env.gethostbyname (cstr cfg.hostname) with
    | none =>
      ⟨none, log0 ++ [LogMsg.unable_resolve (cstr cfg.hostname)],
        [Sys.gethostbyname (cstr cfg.hostname)]⟩
    | some h =>
      let server_socket := env.socket
      let log1 := log0 ++
        (if server_socket < 0 then [LogMsg.unable_create_inet_socket] else [])
      let log2 := log1 ++
        (if sys_bind env server_socket < 0 then
          [LogMsg.unable_bind (cstr cfg.hostname) cfg.port] else [])
      let trace1 := [Sys.gethostbyname (cstr cfg.hostname), Sys.socket_inet,
        Sys.bind server_socket,
        Sys.connect_inet server_socket h.h_addrtype h.h_addr (cfg.port % 65536)]
      if sys_connect env server_socket < 0 then
        ⟨none, log2 ++ [LogMsg.unable_connect_tcp (cstr cfg.hostname) cfg.port],
          trace1 ++ [Sys.close server_socket]⟩
      else
        srv_connect_fdopen env server_socket log2 trace1

/-- `srv_disconnect(socketfd)`: the two calls it makes. -/
def srv_disconnect (server_socket : Int) : List Sys :=
  [Sys.fclose server_socket, Sys.close server_socket]

/-! ## authenticate -/

/-- The text `snprintf` produces for the format of `authenticate`, before it is
cut to the size of the buffer. -/
def auth_format (ptr : auth) : List Nat :=
  bytes "username=" ++ cstr ptr.username ++ bytes "\npassword=" ++ cstr ptr.password ++
    bytes "\ncommon_name=" ++ cstr ptr.common_name ++ bytes "\nhost=" ++ cstr ptr.untrusted_ip ++
    bytes "\nport=" ++ fmt_d ptr.untrusted_port ++ bytes "\n\n"

/-- `snprintf(buf, size, ...)`: at most `size - 1` bytes of the text, then a NUL. -/
def snprintf (size : Nat) (text : List Nat) : List Nat := text.take (size - 1) ++ [NUL]

/-- One run of `authenticate`: the value returned, the messages logged, the
system calls made, and the bytes written to the server (`none` when the
request was never formatted or sent). -/
structure Run where
  result : Int
  log : List LogMsg
  trace : List Sys
  sent : Option (List Nat)
  deriving DecidableEq, Repr

/-- `authenticate(ptr)`. -/
def authenticate (cfg : Config) (env : Env) (ptr : auth) : Run :=
  let conn := srv_connect cfg env
  match conn.sock with
  | none => ⟨0, conn.log, conn.trace, none⟩
  | some sock =>
    let write_buf := snprintf GEN_BUF_SIZE (auth_format ptr)
    let sent := cstr write_buf
    match (fgets GEN_BUF_SIZE env.reply).1 with
    | none =>
      ⟨0, conn.log ++ [LogMsg.no_response], conn.trace ++ srv_disconnect sock, some sent⟩
    | some read_buf =>
      if strlen read_buf < 3 then
        ⟨0, conn.log ++ [LogMsg.invalid_response (cstr read_buf)],
          conn.trace ++ srv_disconnect sock, some sent⟩
      else
        let read_buf := chomp read_buf
        let srv_code := strncpy (zeroed 4) read_buf 2
        if strcasecmp (cstr srv_code) (bytes "OK") ≠ 0 then
          ⟨0, conn.log ++ [LogMsg.auth_failed (cstr ptr.username) (cstr read_buf)],
            conn.trace ++ srv_disconnect sock, some sent⟩
        else
          ⟨1, conn.log ++ [LogMsg.auth_succeeded (cstr ptr.username)],
            conn.trace ++ srv_disconnect sock, some sent⟩

/-! ## The end of main, and the alarm handler -/

/-- The value `main` returns after the exchange, `return (! r)` with
`r = authenticate(auth_str)`. -/
def main_exit (cfg : Config) (env : Env) (auth_str : auth) : Int :=
  if (authenticate cfg env auth_str).result = 0 then 1 else 0

/-- `sigh_alrm(num)`: the message it logs and the status it passes to `exit`. -/
def sigh_alrm (cfg : Config) (_num : Int) : LogMsg × Int :=
  (LogMsg.timeout_exceeded cfg.timeout, 1)

/-! ## Collecting the credentials -/

/-- What `authstruct_init` returns when both allocations succeed: two zeroed
buffers of `CRED_BUF_SIZE` bytes; the other three members keep whatever the
fresh memory holds (`fresh`). -/
def authstruct_init (fresh : auth) : auth :=
  { fresh with username := zeroed CRED_BUF_SIZE, password := zeroed CRED_BUF_SIZE }

/-- The environment variables and the files of the process. -/
structure Proc where
  getenv : List Nat → Option (List Nat)
  fopen : List Nat → Option Stream

/-- The two statements after each `fgets` in `credentials_retr`:
`len = strlen(fbuf); if (fbuf[len - 1] == '\n') fbuf[len - 1] = '\0';`.
For `len = 0` the source reads the byte in front of the buffer; the model
leaves the buffer as it is. -/
def strip_newline (fbuf : List Nat) : List Nat :=
  let len := strlen fbuf
  if 1 ≤ len ∧ fbuf.getD (len - 1) NUL = LF then fbuf.set (len - 1) NUL else fbuf

/-- The end of `credentials_retr`: the three values taken from the environment. -/
def credentials_retr_env (p : Proc) (ptr : auth) : auth × List LogMsg :=
  let cn := p.getenv (bytes "common_name")
  let ip := p.getenv (bytes "untrusted_ip")
  let port := p.getenv (bytes "untrusted_port")
  ({ ptr with
      common_name := cn.getD [],
      untrusted_ip := ip.getD [],
      untrusted_port := match port with
        | none => 0
        | some tmp => atoi tmp },
    (if cn.isNone then [LogMsg.common_name_not_set] else []) ++
    (if ip.isNone then [LogMsg.untrusted_ip_not_set] else []) ++
    (if port.isNone then [LogMsg.untrusted_port_not_set] else []))

/-- `credentials_retr(ptr, file)`: the value returned, the structure afterwards
and the messages logged.  `file = none` stands for `file == NULL`. -/
def credentials_retr (p : Proc) (ptr : auth) (file : Option (List Nat)) :
    Int × auth × List LogMsg :=
  match file with
  | none =>
    let ptr1 := match p.getenv (bytes "username") with
      | none => ptr
      | some tmp => { ptr with username := strncpy ptr.username tmp CRED_BUF_SIZE }
    let ptr2 := match p.getenv (bytes "password") with
      | none => ptr1
      | some tmp => { ptr1 with password := strncpy ptr1.password tmp CRED_BUF_SIZE }
    let r := credentials_retr_env p ptr2
    (1, r.1, r.2)
  | some name =>
    match p.fopen name with
    | none => (0, ptr, [LogMsg.unable_open_credentials (cstr name)])
    | some fd =>
      match fgets CRED_BUF_SIZE fd with
      | (none, _) => (0, ptr, [LogMsg.unable_read_username])
      | (some fbuf, fd1) =>
        let ptr1 := { ptr with
          username := strncpy ptr.username (strip_newline fbuf) CRED_BUF_SIZE }
        match fgets CRED_BUF_SIZE fd1 with
        | (none, _) => (0, ptr1, [LogMsg.unable_read_password])
        | (some fbuf2, _) =>
          let ptr2 := { ptr1 with
            password := strncpy ptr1.password (strip_newline fbuf2) CRED_BUF_SIZE }
          let r := credentials_retr_env p ptr2
          (1, r.1, r.2)

/-- The five cases `'U'`, `'P'`, `'C'`, `'X'`, `'Y'` of the option switch in
`main`: what they do to the structure given the option character and `optarg`. -/
def main_option (c : Nat) (optarg : List Nat) (auth_str : auth) : auth :=
  if c = 85 then { auth_str with username := strncpy auth_str.username optarg CRED_BUF_SIZE }
  else if c = 80 then
    { auth_str with password := strncpy auth_str.password optarg CRED_BUF_SIZE }
  else if c = 67 then { auth_str with common_name := optarg }
  else if c = 88 then { auth_str with untrusted_ip := optarg }
  else if c = 89 then { auth_str with untrusted_port := atoi optarg }
  else auth_str

/-! ## The configuration file -/

/-- `isalpha` in the C locale. -/
def isalpha (c : Nat) : Bool := (65 ≤ c && c ≤ 90) || (97 ≤ c && c ≤ 122)

/-- `isalnum` in the C locale. -/
def isalnum (c : Nat) : Bool := isalpha c || isdigit c

/-- `isgraph` in the C locale. -/
def isgraph (c : Nat) : Bool := 33 ≤ c && c ≤ 126

/-- A buffer after its first bytes were overwritten with `data`. -/
def overwrite (buf data : List Nat) : List Nat := data ++ buf.drop data.length

/-- The output of the `printf` calls of `print_default_config`, one entry per
call, in the order of the source. -/
def print_default_config_calls : List (List Nat) :=
  [bytes "#\n",
   bytes "# WHAT: openvpnc sample configuration file\n",
   bytes "#\n",
   bytes "# NOTES: \n",
   bytes "# - empty lines are ignored.\n",
   bytes "# - lines started with hash (#) are ignored.\n",
   bytes "# - invalid parameters are ignored.\n",
   bytes "#\n",
   bytes "\n",
   bytes "# Authentication server IP address, full qualified domain name (FQDN) or socket file\n",
   bytes "# Type: string\n",
   bytes "# Default: " ++ DEFAULT_HOSTNAME ++ bytes "\n",
   bytes "hostname = " ++ DEFAULT_HOSTNAME ++ bytes "\n",
   bytes "\n",
   bytes "\n",
   bytes "# Authentication server listening port.\n",
   bytes "# NOTE: this option is silently ignored if\n",
   bytes "# hostname is path to unix domain socket file\n",
   bytes "#\n",
   bytes "# Type: integer\n",
   bytes "# Default: " ++ fmt_d DEFAULT_PORT ++ bytes "\n",
   bytes "port = " ++ fmt_d DEFAULT_PORT ++ bytes "\n",
   bytes "\n",
   bytes "# Authentication timeout in seconds\n",
   bytes "# Assume, that authentication has failed\n",
   bytes "# if authentication server has not replied\n",
   bytes "# in specified amount of seconds.\n",
   bytes "#\n",
   bytes "# Type: integer\n",
   bytes "# Default: " ++ fmt_d DEFAULT_AUTH_TIMEOUT ++ bytes "\n",
   bytes "timeout = " ++ fmt_d DEFAULT_AUTH_TIMEOUT ++ bytes "\n",
   bytes "\n",
   bytes "# EOF\n"]

/-- `print_default_config()`: the text it writes to standard output. -/
def print_default_config : List Nat := print_default_config_calls.flatten

/-- `config_get_param(str)` for a buffer `str`: `none` for NULL, else the
buffer `var_buf`.  The scan for the first letter does not stop at the NUL that
ends the string; where it would leave the buffer the model stops (the memory
behind the buffer is not modelled). -/
def config_get_param (str : List Nat) : Option (List Nat) :=
  if strlen str < 1 ∨ str.headD NUL = LF ∨ streq str (bytes "\r\n") = true then none
  else if str.headD NUL = 35 then none
  else
    let ptr := str.dropWhile (fun c => !isalpha c)
    let var_buf := overwrite (zeroed GEN_BUF_SIZE) (ptr.takeWhile isalnum)
    if strlen var_buf < 1 then none else some var_buf

/-- `config_get_value(str)` for a buffer `str`: `none` for NULL, else the
buffer `val_buf`.  The two scans, for the equals sign and for the first
printable byte, do not stop at the NUL that ends the string; where they would
leave the buffer the model stops. -/
def config_get_value (str : List Nat) : Option (List Nat) :=
  if strlen str < 1 then none
  else
    let ptr := (str.dropWhile (fun c => c != 61)).drop 1
    let ptr := ptr.dropWhile (fun c => !isgraph c)
    let val_buf := overwrite (zeroed GEN_BUF_SIZE) (ptr.takeWhile isgraph)
    if strlen val_buf < 1 then none else some val_buf

/-- The body of the loop of `load_config_file` after `fgets`: what one line in
`buf` does to the configuration, and the warning it may log.  `lines` is the
line counter after its increment. -/
def load_config_line (cfg : Config) (file buf : List Nat) (lines : Nat) :
    Config × List LogMsg :=
  match config_get_param buf with
  | none => (cfg, [])
  | some var =>
    match config_get_value buf with
    | none => (cfg, [])
    | some val =>
      if streq var (bytes "hostname") then
        ({ cfg with hostname := strncpy cfg.hostname val GEN_BUF_SIZE }, [])
      else if streq var (bytes "port") then ({ cfg with port := atoi val }, [])
      else if streq var (bytes "timeout") then ({ cfg with timeout := atoi val }, [])
      else (cfg, [LogMsg.unknown_parameter (cstr var) (cstr file) lines])

/-- The loop of `load_config_file`; the first argument is the number of lines
that may still be read, `CONF_FILE_MAXLINES - lines`.  Each turn clears `buf`,
reads one line into it with `fgets` and leaves the loop on a NULL return. -/
def load_config_loop : Nat → List Nat → Stream → Nat → Config → Config × List LogMsg
  | 0, _, _, _, cfg => (cfg, [])
  | left + 1, file, fd, lines, cfg =>
    match fgets GEN_BUF_SIZE fd with
    | (none, _) => (cfg, [])
    | (some read, fd1) =>
      let buf := overwrite (zeroed GEN_BUF_SIZE) read
      let step := load_config_line cfg file buf (lines + 1)
      let rest := load_config_loop left file fd1 (lines + 1) step.1
      (rest.1, step.2 ++ rest.2)

/-- `load_config_file(file)`: the value returned, the configuration afterwards
and the messages logged.  `file = none` stands for `file == NULL`. -/
def load_config_file (p : Proc) (cfg : Config) (file : Option (List Nat)) :
    Int × Config × List LogMsg :=
  match file with
  | none => (0, cfg, [LogMsg.unspecified_config_file])
  | some name =>
    match p.fopen name with
    | none => (0, cfg, [])
    | some fd =>
      let r := load_config_loop CONF_FILE_MAXLINES name fd 0 cfg
      (1, r.1, r.2)

/-! ## Definitions used to state the properties -/

/-- The line with all its trailing carriage returns, line feeds and form feeds removed. -/
def trimmed (line : List Nat) : List Nat :=
  line.rdropWhile (fun c => decide (c = CR ∨ c = LF ∨ c = FF))

/-- The first two bytes are the token OK in any letter case. -/
def startsWithOK : List Nat → Bool
  | c1 :: c2 :: _ => (c1 == 79 || c1 == 111) && (c2 == 75 || c2 == 107)
  | _ => false


/-- The first line of a stream: the bytes up to and including the first line
feed, or, when the stream holds no line feed and ends at end of file, all of
its bytes. -/
def FirstLine (s : Stream) (line : List Nat) : Prop :=
  (∃ body after, line = body ++ [LF] ∧ LF ∉ body ∧ s.bytes = line ++ after) ∨
    (LF ∉ line ∧ s.bytes = line ∧ s.err = false)

/-- The bytes `authenticate` writes to the server: the C string that `snprintf`
left in `write_buf`. -/
def request (ptr : auth) : List Nat := cstr (snprintf GEN_BUF_SIZE (auth_format ptr))

/-! ## Concrete runs -/

/-- The default configuration: TCP to 127.0.0.1, port 1559, timeout 10. -/
def cfgTcp : Config := ⟨DEFAULT_HOSTNAME, DEFAULT_PORT, DEFAULT_AUTH_TIMEOUT, 0⟩

/-- A configuration whose hostname is a socket path. -/
def cfgUnix : Config := ⟨bytes "/var/run/auth.sock", DEFAULT_PORT, DEFAULT_AUTH_TIMEOUT, 0⟩

/-- An environment in which every call succeeds (descriptor 3) and the server
sends the given bytes and then closes the stream. -/
def envReply (reply : List Nat) : Env :=
  ⟨3, fun _ => some ⟨2, 2130706433⟩, 0, 0, true, ⟨reply, false⟩⟩

/-- A small credential record. -/
def credBob : auth := ⟨bytes "bob", bytes "secret", bytes "bob.example", bytes "10.0.0.7", 40123⟩

/-- A rejected reply line of 1103 bytes: the letters NO, 1100 times the letter
x, and a line feed. -/
def longLine : List Nat := bytes "NO" ++ List.replicate 1100 120 ++ [LF]

/-- The five values of a credential record as `authenticate` reads them: the C
strings of the four text members, and the port. -/
def fieldValues (a : auth) : List Nat × List Nat × List Nat × List Nat × Int :=
  (cstr a.username, cstr a.password, cstr a.common_name, cstr a.untrusted_ip, a.untrusted_port)

/-- None of the four text values holds a line feed. -/
def lineFree (a : auth) : Prop :=
  LF ∉ cstr a.username ∧ LF ∉ cstr a.password ∧ LF ∉ cstr a.common_name ∧
    LF ∉ cstr a.untrusted_ip

/-- The number of bytes of the formatted request: 46 bytes of keys and line
feeds, the four text values and the decimal port. -/
def requestSize (a : auth) : Nat :=
  46 + strlen a.username + strlen a.password + strlen a.common_name + strlen a.untrusted_ip +
    (fmt_d a.untrusted_port).length

/-- A record whose user name and password have 511 bytes each. -/
def credBig : auth := ⟨List.replicate 511 97, List.replicate 511 98, [], [], 0⟩

/-- A record whose user name holds a line feed. -/
def credSplitA : auth := ⟨bytes "a\npassword=b", bytes "", bytes "", bytes "", 0⟩

/-- A record with another user name and password that is sent as the same bytes
as `credSplitA`. -/
def credSplitB : auth := ⟨bytes "a", bytes "b\npassword=", bytes "", bytes "", 0⟩

/-- The record `credBob` held in larger buffers: other bytes follow the NUL
that ends the user name and the password. -/
def credBobPadded : auth :=
  ⟨bytes "bob" ++ [NUL, 120, 121], bytes "secret" ++ [NUL, 122], bytes "bob.example",
    bytes "10.0.0.7", 40123⟩

/-- An environment in which `bind` fails and every other call succeeds; the
server accepts. -/
def envBindFails : Env :=
  ⟨3, fun _ => some ⟨2, 2130706433⟩, -1, 0, true, ⟨bytes "OK\n", false⟩⟩

/-- A value of 600 bytes, longer than `CRED_BUF_SIZE`. -/
def longValue : List Nat := List.replicate 600 97

/-- A process whose environment holds `longValue` under every name and whose
credentials file has `longValue` on both of its lines. -/
def procLong : Proc :=
  ⟨fun _ => some longValue, fun _ => some ⟨longValue ++ LF :: (longValue ++ [LF]), false⟩⟩

/-- A process whose credentials file has a short first line and `longValue` on
the second. -/
def procLongPassword : Proc :=
  ⟨fun _ => none, fun _ => some ⟨bytes "bob" ++ LF :: (longValue ++ [LF]), false⟩⟩

/-! ## Definitions used to state the properties of the configuration file -/

/-- A line that `fgets` reads whole into a buffer of `GEN_BUF_SIZE` bytes: it
ends with a line feed, holds no other line feed and has at most 1023 bytes. -/
def isLine (l : List Nat) : Bool :=
  l.getLast? == some LF && !(l.dropLast.contains LF) && decide (l.length ≤ GEN_BUF_SIZE - 1)

/-- The buffer `buf` of `load_config_file` after `memset` and an `fgets` that
read the line `l`. -/
def lineBuf (l : List Nat) : List Nat := overwrite (zeroed GEN_BUF_SIZE) (l ++ [NUL])

/-- What one line of a configuration file does to the configuration. -/
def lineEffect (cfg : Config) (l : List Nat) : Config :=
  (load_config_line cfg [] (lineBuf l) 0).1

/-- A comment line (it starts with a hash sign) or an empty line. -/
def isCommentOrEmpty (l : List Nat) : Bool := l.head? == some 35 || l == [LF]

/-- A process whose configuration file holds the text that
`print_default_config` prints. -/
def procDefault : Proc := ⟨fun _ => none, fun _ => some ⟨print_default_config, false⟩⟩

/-- A configuration that differs from the defaults in every variable. -/
def cfgOther : Config := ⟨bytes "/tmp/other.sock", 99, 3, 1⟩

/-- A socket path of 109 bytes: a slash and 108 times the letter a. -/
def longPath : List Nat := SLASH :: List.replicate 108 97

/-- A configuration whose hostname is `longPath`. -/
def cfgLongPath : Config := ⟨longPath ++ [NUL], DEFAULT_PORT, DEFAULT_AUTH_TIMEOUT, 0⟩

/-- An environment in which the name of the server cannot be resolved; every
other call would succeed and the server would accept. -/
def envNoResolve : Env := ⟨3, fun _ => none, 0, 0, true, ⟨bytes "OK\n", false⟩⟩

/-- An environment in which `connect` fails; the server would accept. -/
def envNoConnect : Env :=
  ⟨3, fun _ => some ⟨2, 2130706433⟩, 0, -1, true, ⟨bytes "OK\n", false⟩⟩

/-! ## C strings and chomp -/

theorem cstr_nil : cstr [] = [] := rfl

theorem cstr_cons_nul (r : List Nat) : cstr (NUL :: r) = [] := by
  simp [cstr, NUL]

theorem cstr_cons_of_ne (c : Nat) (r : List Nat) (h : c ≠ NUL) : cstr (c :: r) = c :: cstr r := by
  simp [cstr, h]

theorem cstr_append_of_noNul (l r : List Nat) (h : ∀ c ∈ l, c ≠ NUL) :
    cstr (l ++ r) = l ++ cstr r := by
  induction l with
  | nil => rfl
  | cons a l ih =>
    have ha : a ≠ NUL := h a (List.mem_cons_self _ _)
    have hl : ∀ c ∈ l, c ≠ NUL := fun c hc => h c (List.mem_cons_of_mem _ hc)
    simp [cstr_cons_of_ne _ _ ha, ih hl]

theorem cstr_of_noNul (l : List Nat) (h : ∀ c ∈ l, c ≠ NUL) : cstr l = l := by
  have := cstr_append_of_noNul l [] h
  simpa [cstr_nil] using this

theorem cstr_noNul (buf : List Nat) : ∀ c ∈ cstr buf, c ≠ NUL := by
  intro c hc
  have := List.mem_takeWhile_imp hc
  simpa using this

theorem cstr_idem (buf : List Nat) : cstr (cstr buf) = cstr buf :=
  cstr_of_noNul _ (cstr_noNul buf)

theorem cstr_length_le (buf : List Nat) : (cstr buf).length ≤ buf.length := by
  unfold cstr
  exact (List.takeWhile_sublist _).length_le

theorem isTrailer_iff (c : Nat) : isTrailer c = decide (c = CR ∨ c = LF ∨ c = FF) := by
  unfold isTrailer
  by_cases h1 : c = FF <;> by_cases h2 : c = CR <;> by_cases h3 : c = LF <;> simp [h1, h2, h3]

theorem isTrailer_ne_nul (c : Nat) (h : isTrailer c = true) : c ≠ NUL := by
  intro hc
  subst hc
  revert h
  decide

/-- The loop of `chomp` run over a NUL-free text `p` followed by bytes `z` that
hold an empty C string leaves the text without its trailing CR, LF and FF. -/
theorem chompLoop_spec (p : List Nat) : ∀ z : List Nat, (∀ c ∈ p, c ≠ NUL) → cstr z = [] →
    cstr (chompLoop p.length (p ++ z)) = trimmed p := by
  induction p using List.reverseRecOn with
  | nil =>
    intro z _ hz
    simpa [chompLoop, trimmed] using hz
  | append_singleton q a ih =>
    intro z hp hz
    have hq : ∀ c ∈ q, c ≠ NUL := fun c hc => hp c (by simp [hc])
    have ha : a ≠ NUL := hp a (by simp)
    have hget : (q ++ [a] ++ z).getD q.length NUL = a := by
      rw [List.append_assoc, List.getD_eq_getElem?_getD, List.getElem?_append_right (le_refl _)]
      simp
    rw [List.length_append, List.length_singleton, chompLoop, hget]
    by_cases ht : isTrailer a = true
    · have hset : (q ++ [a] ++ z).set q.length NUL = q ++ (NUL :: z) := by
        simp [List.set_append_left, List.set_append_right]
      rw [if_pos ht, hset, ih (NUL :: z) hq (cstr_cons_nul z)]
      unfold trimmed
      rw [List.rdropWhile_concat_pos]
      rw [← isTrailer_iff]; exact ht
    · rw [if_neg ht, cstr_append_of_noNul _ _ hp, hz, List.append_nil]
      unfold trimmed
      rw [List.rdropWhile_concat_neg]
      rw [← isTrailer_iff]; exact ht

theorem cstr_dropWhile (buf : List Nat) : cstr (buf.dropWhile (fun c => c != NUL)) = [] := by
  induction buf with
  | nil => rfl
  | cons a l ih =>
    by_cases h : a = NUL
    · subst h; simp [cstr, NUL]
    · simpa [List.dropWhile_cons, h] using ih

/-- What `chomp` does to the C string in any buffer: it removes the trailing
CR, LF and FF bytes and nothing else. -/
theorem cstr_chomp (buf : List Nat) : cstr (chomp buf) = trimmed (cstr buf) := by
  have hsplit : buf = cstr buf ++ buf.dropWhile (fun c => c != NUL) :=
    (List.takeWhile_append_dropWhile _ buf).symm
  have h := chompLoop_spec (cstr buf) (buf.dropWhile (fun c => c != NUL)) (cstr_noNul buf)
    (cstr_dropWhile buf)
  rw [← hsplit] at h
  exact h

theorem trimmed_cons (c : Nat) (r : List Nat) (hc : isTrailer c = false) :
    trimmed (c :: r) = c :: trimmed r := by
  induction r using List.reverseRecOn with
  | nil =>
    have hc2 : ¬ (c = CR ∨ c = LF ∨ c = FF) := by
      rw [isTrailer_iff] at hc
      simpa using hc
    simp [trimmed, List.rdropWhile_singleton, hc2]
  | append_singleton q a ih =>
    by_cases ht : isTrailer a = true
    · have e1 : trimmed (c :: (q ++ [a])) = trimmed (c :: q) := by
        unfold trimmed
        rw [← List.cons_append, List.rdropWhile_concat_pos]
        rw [← isTrailer_iff]; exact ht
      have e2 : trimmed (q ++ [a]) = trimmed q := by
        unfold trimmed
        rw [List.rdropWhile_concat_pos]
        rw [← isTrailer_iff]; exact ht
      rw [e1, e2, ih]
    · have e1 : trimmed (c :: (q ++ [a])) = c :: (q ++ [a]) := by
        unfold trimmed
        rw [← List.cons_append, List.rdropWhile_concat_neg]
        rw [← isTrailer_iff]; exact ht
      have e2 : trimmed (q ++ [a]) = q ++ [a] := by
        unfold trimmed
        rw [List.rdropWhile_concat_neg]
        rw [← isTrailer_iff]; exact ht
      rw [e1, e2]

theorem trimmed_initial (l : List Nat) : trimmed l <+: l := List.rdropWhile_prefix _ l

theorem trimmed_length_le (l : List Nat) : (trimmed l).length ≤ l.length :=
  (trimmed_initial l).length_le

theorem startsWithOK_trimmed (l : List Nat) : startsWithOK (trimmed l) = startsWithOK l := by
  match l with
  | [] => simp [trimmed]
  | [a] =>
    have h := trimmed_length_le [a]
    match ht : trimmed [a] with
    | [] => rfl
    | [b] => rfl
    | b :: c :: r => rw [ht] at h; simp at h
  | a :: b :: r =>
    by_cases hok : startsWithOK (a :: b :: r) = true
    · have ha : isTrailer a = false := by
        simp only [startsWithOK, Bool.and_eq_true, Bool.or_eq_true, beq_iff_eq] at hok
        rcases hok.1 with h | h <;> subst h <;> decide
      have hb : isTrailer b = false := by
        simp only [startsWithOK, Bool.and_eq_true, Bool.or_eq_true, beq_iff_eq] at hok
        rcases hok.2 with h | h <;> subst h <;> decide
      rw [trimmed_cons a _ ha, trimmed_cons b _ hb]
      rfl
    · obtain ⟨t, ht⟩ := trimmed_initial (a :: b :: r)
      match hx : trimmed (a :: b :: r) with
      | [] => simpa [startsWithOK] using hok
      | [x] => simpa [startsWithOK] using hok
      | x :: y :: z =>
        rw [hx] at ht
        simp only [List.cons_append, List.cons.injEq] at ht
        obtain ⟨rfl, rfl, _⟩ := ht
        rfl

theorem bytes_OK : bytes "OK" = [79, 75] := by decide

theorem tolower_eq_o (a : Nat) : tolower a = 111 ↔ (a = 79 ∨ a = 111) := by
  unfold tolower
  split <;> omega

theorem tolower_eq_k (a : Nat) : tolower a = 107 ↔ (a = 75 ∨ a = 107) := by
  unfold tolower
  split <;> omega

/-- The status code copied by `strncpy(srv_code, read_buf, 2)` is the first two
bytes of the C string in `read_buf`. -/
theorem cstr_srv_code (buf : List Nat) : cstr (strncpy (zeroed 4) buf 2) = (cstr buf).take 2 := by
  have hno : ∀ c ∈ (cstr buf).take 2, c ≠ NUL :=
    fun c hc => cstr_noNul buf c (List.mem_of_mem_take hc)
  unfold strncpy
  rw [List.append_assoc, cstr_append_of_noNul _ _ hno]
  have : cstr (List.replicate (2 - (cstr buf).length) NUL ++ List.drop 2 (zeroed 4)) = [] := by
    have h3 : 2 - (cstr buf).length = 0 ∨ 2 - (cstr buf).length = 1 ∨
        2 - (cstr buf).length = 2 := by omega
    rcases h3 with h | h | h <;> rw [h] <;> decide
  rw [this, List.append_nil]

theorem strcasecmp_OK (s : List Nat) :
    strcasecmp (s.take 2) (bytes "OK") = 0 ↔ startsWithOK s = true := by
  rw [bytes_OK]
  match s with
  | [] => simp [strcasecmp, startsWithOK, tolower]
  | [a] =>
    simp only [List.take, strcasecmp, startsWithOK]
    have h75 : tolower 75 = 107 := by decide
    have h79 : tolower 79 = 111 := by decide
    by_cases h : tolower a = tolower 79
    · simp [h, h75]
    · simp only [h, if_false]
      have : tolower a ≠ 111 := by rw [h79] at h; exact h
      constructor
      · intro h0; omega
      · intro h0; simp at h0
  | a :: b :: r =>
    have h75 : tolower 75 = 107 := by decide
    have h79 : tolower 79 = 111 := by decide
    simp only [List.take, strcasecmp, startsWithOK, h75, h79, Bool.and_eq_true,
      Bool.or_eq_true, beq_iff_eq]
    rw [← tolower_eq_o, ← tolower_eq_k]
    by_cases h1 : tolower a = 111
    · by_cases h2 : tolower b = 107
      · simp [h1, h2]
      · simp only [h1, h2, if_true, if_false]
        constructor
        · intro h0; omega
        · intro h0; exact absurd h0.2 (by simp)
    · simp only [h1, if_false]
      constructor
      · intro h0; omega
      · intro h0; exact absurd h0.1 (by simp)

/-! ## fgets -/

theorem fgetsBytes_length_le (k : Nat) (l : List Nat) : (fgetsBytes k l).length ≤ l.length := by
  induction l generalizing k with
  | nil => cases k <;> simp [fgetsBytes]
  | cons a l ih =>
    cases k with
    | zero => simp [fgetsBytes]
    | succ k =>
      simp only [fgetsBytes]
      split
      · simp
      · simpa using ih k

theorem fgetsBytes_length_le_room (k : Nat) (l : List Nat) : (fgetsBytes k l).length ≤ k := by
  induction l generalizing k with
  | nil => cases k <;> simp [fgetsBytes]
  | cons a l ih =>
    cases k with
    | zero => simp [fgetsBytes]
    | succ k =>
      simp only [fgetsBytes]
      split
      · simp
      · simpa using ih k

/-- A complete line that fits is taken whole, line feed included. -/
theorem fgetsBytes_line (body after : List Nat) (k : Nat) (hb : LF ∉ body)
    (hk : body.length < k) : fgetsBytes k (body ++ LF :: after) = body ++ [LF] := by
  induction body generalizing k with
  | nil =>
    cases k with
    | zero => omega
    | succ k => simp [fgetsBytes]
  | cons a l ih =>
    cases k with
    | zero => omega
    | succ k =>
      have ha : a ≠ LF := fun h => hb (by simp [h])
      have hl : LF ∉ l := fun h => hb (by simp [h])
      rw [List.cons_append, fgetsBytes, if_neg ha, ih k hl (by simpa using hk)]
      rfl

/-- Input without a line feed that fits is taken whole. -/
theorem fgetsBytes_all (line : List Nat) (k : Nat) (hb : LF ∉ line) (hk : line.length ≤ k) :
    fgetsBytes k line = line := by
  induction line generalizing k with
  | nil => cases k <;> rfl
  | cons a l ih =>
    cases k with
    | zero => simp at hk
    | succ k =>
      have ha : a ≠ LF := fun h => hb (by simp [h])
      have hl : LF ∉ l := fun h => hb (by simp [h])
      rw [fgetsBytes, if_neg ha, ih k hl (by simpa using hk)]

/-- When a line feed lies within the first part of the input, nothing behind
that part is taken. -/
theorem fgetsBytes_length_le_of_mem (l r : List Nat) (k : Nat) (h : LF ∈ l) :
    (fgetsBytes k (l ++ r)).length ≤ l.length := by
  induction l generalizing k with
  | nil => simp at h
  | cons a l ih =>
    cases k with
    | zero => simp [fgetsBytes]
    | succ k =>
      rw [List.cons_append, fgetsBytes]
      by_cases ha : a = LF
      · simp [ha]
      · have hl : LF ∈ l := by
          rcases List.mem_cons.mp h with h | h
          · exact absurd h.symm ha
          · exact h
        simpa [ha] using ih k hl

/-- The bytes taken up to a line feed are a part of the text in front of it. -/
theorem fgetsBytes_initial (x after : List Nat) (k : Nat) :
    fgetsBytes k (x ++ LF :: after) <+: x ++ [LF] := by
  induction x generalizing k with
  | nil =>
    cases k with
    | zero => simp [fgetsBytes]
    | succ k => simp [fgetsBytes]
  | cons a l ih =>
    cases k with
    | zero => simp [fgetsBytes]
    | succ k =>
      rw [List.cons_append, fgetsBytes]
      by_cases ha : a = LF
      · simp [ha]
      · simp only [if_neg ha]
        exact (List.prefix_cons_inj a).mpr (ih k)

/-- With a line feed in the input, `fgets` stops because the room is used up or
because it has taken a line feed. -/
theorem fgetsBytes_full_or_lf (l : List Nat) (k : Nat) (h : LF ∈ l) :
    (fgetsBytes k l).length = k ∨ (fgetsBytes k l).getLast? = some LF := by
  induction l generalizing k with
  | nil => simp at h
  | cons a l ih =>
    cases k with
    | zero => left; simp [fgetsBytes]
    | succ k =>
      simp only [fgetsBytes]
      by_cases ha : a = LF
      · right; simp [ha]
      · have hl : LF ∈ l := by
          rcases List.mem_cons.mp h with h | h
          · exact absurd h.symm ha
          · exact h
        simp only [if_neg ha]
        rcases ih k hl with h1 | h1
        · left; simp [h1]
        · right
          cases hx : fgetsBytes k l with
          | nil => rw [hx] at h1; simp at h1
          | cons b t => rw [hx] at h1; rw [List.getLast?_cons_cons]; exact h1

theorem fgets_none_of_empty (n : Nat) (s : Stream) (h : s.bytes = []) : (fgets n s).1 = none := by
  have : fgetsBytes (n - 1) [] = [] := by cases (n - 1) <;> rfl
  simp [fgets, h, this]

theorem fgets_some_length (n : Nat) (s : Stream) (buf : List Nat) (h : (fgets n s).1 = some buf) :
    s.bytes ≠ [] ∧ buf = fgetsBytes (n - 1) s.bytes ++ [NUL] ∧ fgetsBytes (n - 1) s.bytes ≠ [] := by
  unfold fgets at h
  simp only at h
  split at h
  · simp at h
  · rename_i hc
    simp only [Bool.or_eq_true, not_or, List.isEmpty_iff] at hc
    refine ⟨?_, ?_, hc.1⟩
    · intro he
      apply hc.1
      rw [he]; cases (n - 1) <;> rfl
    · simpa using h.symm

/-- `fgets` hands over the first line of the stream when the line fits. -/
theorem fgets_firstLine (n : Nat) (s : Stream) (line : List Nat) (h : FirstLine s line)
    (hne : line ≠ []) (hfit : line.length ≤ n - 1) : (fgets n s).1 = some (line ++ [NUL]) := by
  rcases h with ⟨body, after, rfl, hb, hs⟩ | ⟨hb, hs, he⟩
  · have hl : fgetsBytes (n - 1) s.bytes = body ++ [LF] := by
      rw [hs, List.append_assoc]
      exact fgetsBytes_line body after (n - 1) hb (by simpa using hfit)
    simp [fgets, hl]
  · have hl : fgetsBytes (n - 1) s.bytes = line := by
      rw [hs]; exact fgetsBytes_all line (n - 1) hb hfit
    simp [fgets, hl, he, hne]

/-! ## The branches of authenticate -/

theorem authenticate_not_connected (cfg : Config) (env : Env) (ptr : auth)
    (h : (srv_connect cfg env).sock = none) :
    authenticate cfg env ptr = ⟨0, (srv_connect cfg env).log, (srv_connect cfg env).trace, none⟩ := by
  simp [authenticate, h]

theorem authenticate_no_response (cfg : Config) (env : Env) (ptr : auth) (sock : Int)
    (h : (srv_connect cfg env).sock = some sock) (hf : (fgets GEN_BUF_SIZE env.reply).1 = none) :
    authenticate cfg env ptr = ⟨0, (srv_connect cfg env).log ++ [LogMsg.no_response],
      (srv_connect cfg env).trace ++ srv_disconnect sock, some (request ptr)⟩ := by
  simp [authenticate, h, hf, request]

theorem authenticate_invalid (cfg : Config) (env : Env) (ptr : auth) (sock : Int)
    (read_buf : List Nat) (h : (srv_connect cfg env).sock = some sock)
    (hf : (fgets GEN_BUF_SIZE env.reply).1 = some read_buf) (hlen : strlen read_buf < 3) :
    authenticate cfg env ptr =
      ⟨0, (srv_connect cfg env).log ++ [LogMsg.invalid_response (cstr read_buf)],
        (srv_connect cfg env).trace ++ srv_disconnect sock, some (request ptr)⟩ := by
  simp [authenticate, h, hf, hlen, request]

theorem authenticate_succeeded (cfg : Config) (env : Env) (ptr : auth) (sock : Int)
    (read_buf : List Nat) (h : (srv_connect cfg env).sock = some sock)
    (hf : (fgets GEN_BUF_SIZE env.reply).1 = some read_buf) (hlen : 3 ≤ strlen read_buf)
    (hok : startsWithOK (cstr read_buf) = true) :
    authenticate cfg env ptr =
      ⟨1, (srv_connect cfg env).log ++ [LogMsg.auth_succeeded (cstr ptr.username)],
        (srv_connect cfg env).trace ++ srv_disconnect sock, some (request ptr)⟩ := by
  have hcode : strcasecmp (cstr (strncpy (zeroed 4) (chomp read_buf) 2)) (bytes "OK") = 0 := by
    rw [cstr_srv_code, cstr_chomp, strcasecmp_OK, startsWithOK_trimmed]
    exact hok
  have hl : ¬ strlen read_buf < 3 := by omega
  simp [authenticate, h, hf, hl, hcode, request]

theorem authenticate_failed (cfg : Config) (env : Env) (ptr : auth) (sock : Int)
    (read_buf : List Nat) (h : (srv_connect cfg env).sock = some sock)
    (hf : (fgets GEN_BUF_SIZE env.reply).1 = some read_buf) (hlen : 3 ≤ strlen read_buf)
    (hok : startsWithOK (cstr read_buf) = false) :
    authenticate cfg env ptr =
      ⟨0, (srv_connect cfg env).log ++
          [LogMsg.auth_failed (cstr ptr.username) (trimmed (cstr read_buf))],
        (srv_connect cfg env).trace ++ srv_disconnect sock, some (request ptr)⟩ := by
  have hcode : strcasecmp (cstr (strncpy (zeroed 4) (chomp read_buf) 2)) (bytes "OK") ≠ 0 := by
    rw [Ne, cstr_srv_code, cstr_chomp, strcasecmp_OK, startsWithOK_trimmed, hok]
    simp
  have hl : ¬ strlen read_buf < 3 := by omega
  simp [authenticate, h, hf, hl, hcode, request, cstr_chomp]

/-- The value `authenticate` returns is 0 or 1. -/
theorem authenticate_result (cfg : Config) (env : Env) (ptr : auth) :
    (authenticate cfg env ptr).result = 0 ∨ (authenticate cfg env ptr).result = 1 := by
  unfold authenticate
  simp only
  split
  · left; rfl
  · split
    · left; rfl
    · split
      · left; rfl
      · split
        · left; rfl
        · right; rfl

/-- A run that returns 1 was connected and read a reply of three bytes or more. -/
theorem authenticate_one (cfg : Config) (env : Env) (ptr : auth)
    (h : (authenticate cfg env ptr).result = 1) :
    ∃ read_buf, (fgets GEN_BUF_SIZE env.reply).1 = some read_buf ∧ 3 ≤ strlen read_buf := by
  unfold authenticate at h
  simp only at h
  split at h
  · simp at h
  · split at h
    · simp at h
    · rename_i rb hrb
      refine ⟨rb, hrb, ?_⟩
      split at h
      · simp at h
      · omega

/-! ## The response interpreter -/

theorem cstr_append_nul (l r : List Nat) : cstr (l ++ NUL :: r) = cstr l := by
  induction l with
  | nil => simp [cstr_cons_nul, cstr_nil]
  | cons a l ih =>
    by_cases ha : a = NUL
    · subst ha; simp [cstr_cons_nul]
    · simp [cstr_cons_of_ne _ _ ha, ih]

theorem fgetsBytes_ne_nil (k : Nat) (l : List Nat) (hl : l ≠ []) (hk : 0 < k) :
    fgetsBytes k l ≠ [] := by
  cases l with
  | nil => exact absurd rfl hl
  | cons a l =>
    cases k with
    | zero => omega
    | succ k =>
      rw [fgetsBytes]
      split <;> simp

/-- When the stream holds a line feed, `fgets` returns the bytes it took. -/
theorem fgets_of_lf (n : Nat) (s : Stream) (h : LF ∈ s.bytes) (hn : 0 < n - 1) :
    (fgets n s).1 = some (fgetsBytes (n - 1) s.bytes ++ [NUL]) := by
  have hne : fgetsBytes (n - 1) s.bytes ≠ [] :=
    fgetsBytes_ne_nil _ _ (List.ne_nil_of_mem h) hn
  rcases fgetsBytes_full_or_lf s.bytes (n - 1) h with hfull | hlf
  · simp [fgets, hne, hfull]
  · simp [fgets, hne, hlf]

theorem srv_connect_log_no_invalid (cfg : Config) (env : Env) (b : List Nat) :
    LogMsg.invalid_response b ∉ (srv_connect cfg env).log := by
  unfold srv_connect srv_connect_fdopen
  simp only
  repeat' split
  all_goals simp

theorem srv_connect_log_no_failed (cfg : Config) (env : Env) (u b : List Nat) :
    LogMsg.auth_failed u b ∉ (srv_connect cfg env).log := by
  unfold srv_connect srv_connect_fdopen
  simp only
  repeat' split
  all_goals simp

theorem fgetsBytes_cons (k c : Nat) (cs : List Nat) :
    ∃ t, fgetsBytes (k + 1) (c :: cs) = c :: t := by
  rw [fgetsBytes]
  split
  · exact ⟨[], rfl⟩
  · exact ⟨_, rfl⟩

/-- C2, as stated, fails when the remainder starts with a NUL byte: for the
reply O, K, NUL, then the text fine and a line feed, the string in `read_buf`
has 2 bytes, so `authenticate` logs an invalid response and returns 0. -/
theorem C2_counterexample :
    (authenticate cfgTcp (envReply (bytes "OK" ++ NUL :: bytes " fine\n")) credBob).result = 0 ∧
      (authenticate cfgTcp (envReply (bytes "OK" ++ NUL :: bytes " fine\n")) credBob).log =
        (srv_connect cfgTcp (envReply (bytes "OK" ++ NUL :: bytes " fine\n"))).log ++
          [LogMsg.invalid_response (bytes "OK")] := by
  decide

/-- C2 (amended): a reply line that starts with the token OK in any letter
case, followed by any remainder that does not start with a NUL byte (so any
text without NUL bytes) and a line feed (a carriage return in front of the
line feed is part of the remainder), makes `authenticate` log the success and
return 1, whatever the remainder and whatever follows the line. -/
theorem C2_ok_any_case (cfg : Config) (env : Env) (ptr : auth) (sock : Int) (c1 c2 : Nat)
    (rest after : List Nat) (hconn : (srv_connect cfg env).sock = some sock)
    (h1 : c1 = 79 ∨ c1 = 111) (h2 : c2 = 75 ∨ c2 = 107) (hrest : rest.head? ≠ some NUL)
    (hreply : env.reply.bytes = c1 :: c2 :: rest ++ LF :: after) :
    (authenticate cfg env ptr).result = 1 ∧
      (authenticate cfg env ptr).log =
        (srv_connect cfg env).log ++ [LogMsg.auth_succeeded (cstr ptr.username)] := by
  have hc1 : c1 ≠ LF ∧ c1 ≠ NUL := by rcases h1 with h | h <;> subst h <;> decide
  have hc2 : c2 ≠ LF ∧ c2 ≠ NUL := by rcases h2 with h | h <;> subst h <;> decide
  have hmem : LF ∈ env.reply.bytes := by rw [hreply]; simp
  have hf := fgets_of_lf GEN_BUF_SIZE env.reply hmem (by decide)
  obtain ⟨x0, xs, hx, hx0⟩ : ∃ x0 xs, rest ++ LF :: after = x0 :: xs ∧ x0 ≠ NUL := by
    cases rest with
    | nil => exact ⟨LF, after, rfl, by decide⟩
    | cons r rs =>
      refine ⟨r, rs ++ LF :: after, rfl, ?_⟩
      intro h
      apply hrest
      rw [h]
      rfl
  obtain ⟨t, ht⟩ := fgetsBytes_cons 1020 x0 xs
  have hshape : fgetsBytes (GEN_BUF_SIZE - 1) env.reply.bytes = c1 :: c2 :: x0 :: t := by
    rw [hreply]
    show fgetsBytes (1021 + 1 + 1) _ = _
    rw [List.cons_append, List.cons_append, fgetsBytes, if_neg hc1.1, fgetsBytes, if_neg hc2.1,
      hx, ht]
  have hcs : cstr (fgetsBytes (GEN_BUF_SIZE - 1) env.reply.bytes ++ [NUL]) =
      c1 :: c2 :: x0 :: cstr (t ++ [NUL]) := by
    rw [hshape, List.cons_append, List.cons_append, List.cons_append,
      cstr_cons_of_ne _ _ hc1.2, cstr_cons_of_ne _ _ hc2.2, cstr_cons_of_ne _ _ hx0]
  have hlen : 3 ≤ strlen (fgetsBytes (GEN_BUF_SIZE - 1) env.reply.bytes ++ [NUL]) := by
    rw [strlen, hcs]
    simp only [List.length_cons]
    omega
  have hok : startsWithOK (cstr (fgetsBytes (GEN_BUF_SIZE - 1) env.reply.bytes ++ [NUL])) =
      true := by
    rw [hcs]
    rcases h1 with h | h <;> rcases h2 with h' | h' <;> subst h <;> subst h' <;> rfl
  rw [authenticate_succeeded cfg env ptr sock _ hconn hf hlen hok]
  exact ⟨rfl, rfl⟩

theorem C2_ok_any_case_witness :
    (authenticate cfgTcp (envReply (bytes "ok more text\r\n")) credBob).result = 1 ∧
      (authenticate cfgTcp (envReply (bytes "ok more text\r\n")) credBob).log =
        (srv_connect cfgTcp (envReply (bytes "ok more text\r\n"))).log ++
          [LogMsg.auth_succeeded (cstr credBob.username)] :=
  C2_ok_any_case cfgTcp (envReply (bytes "ok more text\r\n")) credBob 3 111 107
    (bytes " more text\r") [] (by decide) (by decide) (by decide) (by decide) (by decide)

theorem strlen_append_nul_le (l : List Nat) : strlen (l ++ [NUL]) ≤ l.length := by
  rw [strlen, cstr_append_nul]
  exact cstr_length_le l

/-- The message kept for a rejected reply never has more bytes than the read
buffer can hold. -/
theorem auth_failed_length (cfg : Config) (env : Env) (ptr : auth) (u m : List Nat)
    (h : LogMsg.auth_failed u m ∈ (authenticate cfg env ptr).log) :
    m.length ≤ GEN_BUF_SIZE - 1 := by
  have hno := srv_connect_log_no_failed cfg env u m
  unfold authenticate at h
  simp only at h
  split at h
  · exact absurd h hno
  · split at h
    · simp [hno] at h
    · rename_i rb hrb
      split at h
      · simp [hno] at h
      · split at h
        · simp only [List.mem_append, hno, false_or, List.mem_singleton,
            LogMsg.auth_failed.injEq] at h
          obtain ⟨_, rfl⟩ := h
          obtain ⟨_, hbuf, _⟩ := fgets_some_length _ _ _ hrb
          rw [cstr_chomp]
          calc (trimmed (cstr rb)).length ≤ (cstr rb).length := trimmed_length_le _
            _ ≤ (fgetsBytes (GEN_BUF_SIZE - 1) env.reply.bytes).length := by
              rw [hbuf]; exact strlen_append_nul_le _
            _ ≤ GEN_BUF_SIZE - 1 := fgetsBytes_length_le_room _ _
        · simp [hno] at h

theorem trimmed_longLine : trimmed longLine = bytes "NO" ++ List.replicate 1100 120 := by
  have e : bytes "NO" ++ List.replicate 1100 120 =
      (bytes "NO" ++ List.replicate 1099 120) ++ [120] := by
    rw [List.append_assoc, ← List.replicate_succ']
  unfold longLine trimmed
  rw [List.rdropWhile_concat_pos _ _ _ (by decide), e,
    List.rdropWhile_concat_neg _ _ _ (by decide)]

/-- C3, as stated, fails on short and on long lines.  The line K, line feed
does not start with OK, yet the run logs the untrimmed buffer as an invalid
response and keeps no rejection message; of the line `longLine` (1103 bytes)
only the first 1023 bytes are read, so the trimmed line is not the message. -/
theorem C3_counterexample :
    (startsWithOK (bytes "K\n") = false ∧
      FirstLine (envReply (bytes "K\n")).reply (bytes "K\n") ∧
      (authenticate cfgTcp (envReply (bytes "K\n")) credBob).log =
        (srv_connect cfgTcp (envReply (bytes "K\n"))).log ++
          [LogMsg.invalid_response (bytes "K\n")] ∧
      LogMsg.auth_failed (cstr credBob.username) (trimmed (bytes "K\n")) ∉
        (authenticate cfgTcp (envReply (bytes "K\n")) credBob).log) ∧
    (startsWithOK longLine = false ∧
      FirstLine (envReply longLine).reply longLine ∧
      LogMsg.auth_failed (cstr credBob.username) (trimmed longLine) ∉
        (authenticate cfgTcp (envReply longLine) credBob).log) := by
  refine ⟨⟨by decide, ?_, by decide, by decide⟩, ⟨rfl, ?_, ?_⟩⟩
  · exact Or.inl ⟨bytes "K", [], by decide, by decide, by decide⟩
  · refine Or.inl ⟨bytes "NO" ++ List.replicate 1100 120, [], rfl, ?_, by simp [envReply]⟩
    intro h
    rcases List.mem_append.mp h with h | h
    · revert h; decide
    · have := List.eq_of_mem_replicate h
      revert this; decide
  · intro h
    have hlen := auth_failed_length _ _ _ _ _ h
    rw [trimmed_longLine, List.length_append, List.length_replicate] at hlen
    have h2 : (bytes "NO").length = 2 := by decide
    unfold GEN_BUF_SIZE at hlen
    omega

/-- C3 (amended): for a reply line without NUL bytes, of at least 3 and at most
1023 bytes with its terminator, whose first two bytes are not OK in any letter
case, `authenticate` returns 0 and the message it logs for the rejection is the
line without its trailing CR, LF and FF bytes, nothing else changed. -/
theorem C3_rejected_message (cfg : Config) (env : Env) (ptr : auth) (sock : Int)
    (line : List Nat) (hconn : (srv_connect cfg env).sock = some sock)
    (hline : FirstLine env.reply line) (hnul : ∀ c ∈ line, c ≠ NUL)
    (hmin : 3 ≤ line.length) (hmax : line.length ≤ GEN_BUF_SIZE - 1)
    (hnot : startsWithOK line = false) :
    (authenticate cfg env ptr).result = 0 ∧
      (authenticate cfg env ptr).log = (srv_connect cfg env).log ++
        [LogMsg.auth_failed (cstr ptr.username) (trimmed line)] := by
  have hne : line ≠ [] := by
    intro h; rw [h] at hmin; simp at hmin
  have hf := fgets_firstLine GEN_BUF_SIZE env.reply line hline hne hmax
  have hcs : cstr (line ++ [NUL]) = line := by
    rw [cstr_append_nul, cstr_of_noNul _ hnul]
  have hlen : 3 ≤ strlen (line ++ [NUL]) := by rw [strlen, hcs]; exact hmin
  have hok : startsWithOK (cstr (line ++ [NUL])) = false := by rw [hcs]; exact hnot
  rw [authenticate_failed cfg env ptr sock _ hconn hf hlen hok, hcs]
  exact ⟨rfl, rfl⟩

theorem C3_rejected_message_witness :
    (authenticate cfgTcp (envReply (bytes "FAIL: bad pw\n")) credBob).result = 0 ∧
      (authenticate cfgTcp (envReply (bytes "FAIL: bad pw\n")) credBob).log =
        (srv_connect cfgTcp (envReply (bytes "FAIL: bad pw\n"))).log ++
          [LogMsg.auth_failed (cstr credBob.username) (trimmed (bytes "FAIL: bad pw\n"))] :=
  C3_rejected_message cfgTcp (envReply (bytes "FAIL: bad pw\n")) credBob 3
    (bytes "FAIL: bad pw\n") (by decide)
    (Or.inl ⟨bytes "FAIL: bad pw", [], by decide, by decide, by decide⟩)
    (by decide) (by decide) (by decide) (by decide)

/-- The trimmed line of the example in C3. -/
theorem trimmed_example : trimmed (bytes "FAIL: bad pw\n") = bytes "FAIL: bad pw" := by decide

/-- C4: when the reply, as `fgets` reads it, has fewer than 3 bytes (a line of
fewer than 3 bytes with its line feed, or a stream that ends after fewer than
3 bytes), `authenticate` returns 0. -/
theorem C4_short_reply_fails (cfg : Config) (env : Env) (ptr : auth) (line after : List Nat)
    (hreply : env.reply.bytes = line ++ after)
    (hend : after = [] ∨ line.getLast? = some LF) (hlen : line.length < 3) :
    (authenticate cfg env ptr).result = 0 := by
  rcases authenticate_result cfg env ptr with h | h
  · exact h
  · exfalso
    obtain ⟨rb, hrb, h3⟩ := authenticate_one cfg env ptr h
    obtain ⟨_, hbuf, _⟩ := fgets_some_length _ _ _ hrb
    have hle : (fgetsBytes (GEN_BUF_SIZE - 1) env.reply.bytes).length ≤ line.length := by
      rw [hreply]
      rcases hend with he | he
      · rw [he, List.append_nil]; exact fgetsBytes_length_le _ _
      · exact fgetsBytes_length_le_of_mem _ _ _ (List.mem_of_getLast?_eq_some he)
    have := strlen_append_nul_le (fgetsBytes (GEN_BUF_SIZE - 1) env.reply.bytes)
    rw [← hbuf] at this
    omega

theorem C4_short_reply_fails_witness :
    (authenticate cfgTcp (envReply (bytes "OK")) credBob).result = 0 :=
  C4_short_reply_fails cfgTcp (envReply (bytes "OK")) credBob (bytes "OK") [] (by decide)
    (Or.inl rfl) (by decide)

/-- C5, as stated, fails: the line OK, line feed has 2 bytes once trimmed, yet
it is not classified as malformed: `authenticate` logs the success and
returns 1. -/
theorem C5_counterexample :
    FirstLine (envReply (bytes "OK\n")).reply (bytes "OK\n") ∧
      (trimmed (bytes "OK\n")).length < 3 ∧
      (authenticate cfgTcp (envReply (bytes "OK\n")) credBob).result = 1 ∧
      (authenticate cfgTcp (envReply (bytes "OK\n")) credBob).log =
        (srv_connect cfgTcp (envReply (bytes "OK\n"))).log ++
          [LogMsg.auth_succeeded (cstr credBob.username)] :=
  ⟨Or.inl ⟨bytes "OK", [], by decide, by decide, by decide⟩, by decide, by decide, by decide⟩

/-- C5 (amended): a reply line that was read and has fewer than 3 bytes as
read, terminator included (before any trailing CR, LF or FF is stripped), is
classified as an invalid response, logged untrimmed, and `authenticate`
returns 0. -/
theorem C5_short_line_malformed (cfg : Config) (env : Env) (ptr : auth) (sock : Int)
    (line : List Nat) (hconn : (srv_connect cfg env).sock = some sock)
    (hline : FirstLine env.reply line) (hne : line ≠ []) (hlen : line.length < 3) :
    (authenticate cfg env ptr).result = 0 ∧
      (authenticate cfg env ptr).log =
        (srv_connect cfg env).log ++ [LogMsg.invalid_response (cstr line)] := by
  have hf := fgets_firstLine GEN_BUF_SIZE env.reply line hline hne
    (by unfold GEN_BUF_SIZE; omega)
  have hs : strlen (line ++ [NUL]) < 3 := lt_of_le_of_lt (strlen_append_nul_le line) hlen
  rw [authenticate_invalid cfg env ptr sock _ hconn hf hs, cstr_append_nul]
  exact ⟨rfl, rfl⟩

theorem C5_short_line_malformed_witness :
    (authenticate cfgTcp (envReply (bytes "K\n")) credBob).result = 0 ∧
      (authenticate cfgTcp (envReply (bytes "K\n")) credBob).log =
        (srv_connect cfgTcp (envReply (bytes "K\n"))).log ++
          [LogMsg.invalid_response (cstr (bytes "K\n"))] :=
  C5_short_line_malformed cfgTcp (envReply (bytes "K\n")) credBob 3 (bytes "K\n") (by decide)
    (Or.inl ⟨bytes "K", [], by decide, by decide, by decide⟩) (by decide) (by decide)

/-- C10: on an open connection whose stream ends (or fails) before any reply
byte, `authenticate` returns 0 through the no-response branch and logs no
invalid response; and whenever a run logs an invalid response, `fgets` did
return a line, read from a stream that was not empty. -/
theorem C10_no_response (cfg : Config) (env : Env) (ptr : auth) :
    (∀ sock, (srv_connect cfg env).sock = some sock → env.reply.bytes = [] →
      (authenticate cfg env ptr).result = 0 ∧
      (authenticate cfg env ptr).log = (srv_connect cfg env).log ++ [LogMsg.no_response] ∧
      ∀ b, LogMsg.invalid_response b ∉ (authenticate cfg env ptr).log) ∧
    (∀ b, LogMsg.invalid_response b ∈ (authenticate cfg env ptr).log →
      env.reply.bytes ≠ [] ∧ ∃ read_buf, (fgets GEN_BUF_SIZE env.reply).1 = some read_buf ∧
        read_buf ≠ [NUL]) := by
  constructor
  · intro sock hconn hempty
    rw [authenticate_no_response cfg env ptr sock hconn (fgets_none_of_empty _ _ hempty)]
    refine ⟨rfl, rfl, ?_⟩
    intro b hb
    simp [srv_connect_log_no_invalid cfg env b] at hb
  · intro b hb
    have hno := srv_connect_log_no_invalid cfg env b
    unfold authenticate at hb
    simp only at hb
    split at hb
    · exact absurd hb hno
    · split at hb
      · simp [hno] at hb
      · rename_i rb hrb
        obtain ⟨h1, h2, h3⟩ := fgets_some_length _ _ _ hrb
        refine ⟨h1, rb, hrb, ?_⟩
        rw [h2]
        intro h
        apply h3
        simpa using h

theorem C10_no_response_witness :
    (authenticate cfgTcp (envReply []) credBob).result = 0 ∧
      (authenticate cfgTcp (envReply []) credBob).log =
        (srv_connect cfgTcp (envReply [])).log ++ [LogMsg.no_response] ∧
      ∀ b, LogMsg.invalid_response b ∉ (authenticate cfgTcp (envReply []) credBob).log :=
  (C10_no_response cfgTcp (envReply []) credBob).1 3 (by decide) rfl

/-! ## The request encoder -/

theorem decDigits_digits (f n : Nat) : ∀ c ∈ decDigits f n, 48 ≤ c ∧ c ≤ 57 := by
  induction f generalizing n with
  | zero => simp [decDigits]
  | succ f ih =>
    intro c hc
    rw [decDigits] at hc
    split at hc
    · simp only [List.mem_singleton] at hc; omega
    · rcases List.mem_append.mp hc with h | h
      · exact ih _ c h
      · simp only [List.mem_singleton] at h; omega

theorem fmt_d_bytes (i : Int) : ∀ c ∈ fmt_d i, c = 45 ∨ (48 ≤ c ∧ c ≤ 57) := by
  intro c hc
  unfold fmt_d at hc
  split at hc
  · rcases List.mem_cons.mp hc with h | h
    · left; exact h
    · right; exact decDigits_digits _ _ c h
  · right; exact decDigits_digits _ _ c hc

theorem atoiDigits_append (ds r : List Nat) (acc : Nat) (h : ∀ c ∈ ds, isdigit c = true) :
    atoiDigits (ds ++ r) acc = atoiDigits r (atoiDigits ds acc) := by
  induction ds generalizing acc with
  | nil => rfl
  | cons d ds ih =>
    have hd : isdigit d = true := h d (List.mem_cons_self _ _)
    have hds : ∀ c ∈ ds, isdigit c = true := fun c hc => h c (List.mem_cons_of_mem _ hc)
    simp only [List.cons_append, atoiDigits, hd, if_true]
    exact ih _ hds

theorem isdigit_of_range (c : Nat) (h : 48 ≤ c ∧ c ≤ 57) : isdigit c = true := by
  simp [isdigit, h.1, h.2]

theorem atoiDigits_decDigits (f n : Nat) (h : n < f) : atoiDigits (decDigits f n) 0 = n := by
  induction f generalizing n with
  | zero => omega
  | succ f ih =>
    rw [decDigits]
    split
    · have : isdigit (48 + n) = true := isdigit_of_range _ (by omega)
      simp [atoiDigits, this]
    · have hdig : ∀ c ∈ decDigits f (n / 10), isdigit c = true :=
        fun c hc => isdigit_of_range c (decDigits_digits _ _ c hc)
      have hlast : isdigit (48 + n % 10) = true := isdigit_of_range _ (by omega)
      rw [atoiDigits_append _ _ _ hdig, ih (n / 10) (by omega)]
      simp only [atoiDigits, hlast, if_true]
      omega

theorem decDigits_ne_nil (f n : Nat) : decDigits (f + 1) n ≠ [] := by
  rw [decDigits]
  split <;> simp

/-- Reading back with `atoi` what `%d` wrote gives the number. -/
theorem atoi_fmt_d (i : Int) : atoi (fmt_d i) = i := by
  have hnul : ∀ c ∈ fmt_d i, c ≠ NUL := by
    intro c hc
    rcases fmt_d_bytes i c hc with h | h
    · subst h; decide
    · unfold NUL; omega
  have hval := atoiDigits_decDigits (i.natAbs + 1) i.natAbs (by omega)
  unfold atoi
  simp only
  rw [cstr_of_noNul _ hnul]
  unfold fmt_d
  by_cases hneg : i < 0
  · simp only [hneg, if_true]
    have : List.dropWhile isspace (45 :: decDigits (i.natAbs + 1) i.natAbs) =
        45 :: decDigits (i.natAbs + 1) i.natAbs := by
      rw [List.dropWhile_cons_of_neg]; decide
    rw [this]
    simp only [List.head?_cons, List.tail_cons, if_true, hval]
    omega
  · simp only [hneg, if_false]
    cases hd : decDigits (i.natAbs + 1) i.natAbs with
    | nil => exact absurd hd (decDigits_ne_nil _ _)
    | cons d ds =>
      have hdr := decDigits_digits (i.natAbs + 1) i.natAbs d (by rw [hd]; simp)
      have hsp : isspace d = false := by
        simp only [isspace, Bool.or_eq_false_iff, beq_eq_false_iff_ne, Bool.and_eq_false_iff,
          decide_eq_false_iff_not]
        omega
      rw [List.dropWhile_cons_of_neg (by simp [hsp])]
      have h45 : d ≠ 45 := by omega
      have h43 : d ≠ 43 := by omega
      simp only [List.head?_cons, Option.some.injEq, h45, h43, if_false]
      rw [← hd, hval]
      omega

theorem fmt_d_injective (i j : Int) (h : fmt_d i = fmt_d j) : i = j := by
  rw [← atoi_fmt_d i, ← atoi_fmt_d j, h]

theorem bytes_noNul (s : String) (h : (bytes s).all (fun c => c != NUL) = true) :
    ∀ c ∈ bytes s, c ≠ NUL := by
  intro c hc
  have := List.all_eq_true.mp h c hc
  simpa using this

theorem auth_format_noNul (ptr : auth) : ∀ c ∈ auth_format ptr, c ≠ NUL := by
  have hport : ∀ c ∈ fmt_d ptr.untrusted_port, c ≠ NUL := by
    intro c h
    rcases fmt_d_bytes _ c h with h | h
    · subst h; decide
    · unfold NUL; omega
  unfold auth_format
  simp only [List.forall_mem_append, and_assoc]
  exact ⟨bytes_noNul _ (by decide), cstr_noNul _, bytes_noNul _ (by decide), cstr_noNul _,
    bytes_noNul _ (by decide), cstr_noNul _, bytes_noNul _ (by decide), cstr_noNul _,
    bytes_noNul _ (by decide), hport, bytes_noNul _ (by decide)⟩

theorem auth_format_length (ptr : auth) : (auth_format ptr).length = requestSize ptr := by
  have h1 : (bytes "username=").length = 9 := by decide
  have h2 : (bytes "\npassword=").length = 10 := by decide
  have h3 : (bytes "\ncommon_name=").length = 13 := by decide
  have h4 : (bytes "\nhost=").length = 6 := by decide
  have h5 : (bytes "\nport=").length = 6 := by decide
  have h6 : (bytes "\n\n").length = 2 := by decide
  unfold auth_format requestSize strlen
  simp only [List.length_append, h1, h2, h3, h4, h5, h6]
  omega

/-- The bytes written are the formatted text cut to the room of `write_buf`. -/
theorem request_eq_take (ptr : auth) : request ptr = (auth_format ptr).take (GEN_BUF_SIZE - 1) := by
  unfold request snprintf
  rw [cstr_append_nul]
  exact cstr_of_noNul _ (fun c hc => auth_format_noNul ptr c (List.mem_of_mem_take hc))

theorem request_length_le (ptr : auth) : (request ptr).length ≤ GEN_BUF_SIZE - 1 := by
  rw [request_eq_take]
  exact List.length_take_le _ _

theorem request_of_fit (ptr : auth) (h : requestSize ptr ≤ GEN_BUF_SIZE - 1) :
    request ptr = auth_format ptr := by
  rw [request_eq_take]
  exact List.take_of_length_le (by rw [auth_format_length]; exact h)

theorem authenticate_sent (cfg : Config) (env : Env) (ptr : auth) (sock : Int)
    (h : (srv_connect cfg env).sock = some sock) :
    (authenticate cfg env ptr).sent = some (request ptr) := by
  unfold authenticate request
  simp only [h]
  repeat' split
  all_goals rfl

theorem append_sep_inj (sep : Nat) (l1 l2 r1 r2 : List Nat) (h1 : sep ∉ l1) (h2 : sep ∉ l2)
    (h : l1 ++ sep :: r1 = l2 ++ sep :: r2) : l1 = l2 ∧ r1 = r2 := by
  induction l1 generalizing l2 with
  | nil =>
    cases l2 with
    | nil => simpa using h
    | cons b l2 =>
      simp only [List.nil_append, List.cons_append, List.cons.injEq] at h
      exact absurd h.1 (fun e => h2 (by simp [e]))
  | cons a l1 ih =>
    cases l2 with
    | nil =>
      simp only [List.nil_append, List.cons_append, List.cons.injEq] at h
      exact absurd h.1 (fun e => h1 (by simp [e]))
    | cons b l2 =>
      simp only [List.cons_append, List.cons.injEq] at h
      have := ih l2 (fun e => h1 (by simp [e])) (fun e => h2 (by simp [e])) h.2
      exact ⟨by rw [h.1, this.1], this.2⟩

/-- The formatted text with its line feeds made explicit. -/
theorem auth_format_lines (ptr : auth) : auth_format ptr =
    bytes "username=" ++ (cstr ptr.username ++ LF :: (bytes "password=" ++
      (cstr ptr.password ++ LF :: (bytes "common_name=" ++ (cstr ptr.common_name ++ LF ::
        (bytes "host=" ++ (cstr ptr.untrusted_ip ++ LF :: (bytes "port=" ++
          (fmt_d ptr.untrusted_port ++ [LF, LF]))))))))) := by
  have e1 : bytes "\npassword=" = LF :: bytes "password=" := by decide
  have e2 : bytes "\ncommon_name=" = LF :: bytes "common_name=" := by decide
  have e3 : bytes "\nhost=" = LF :: bytes "host=" := by decide
  have e4 : bytes "\nport=" = LF :: bytes "port=" := by decide
  have e5 : bytes "\n\n" = [LF, LF] := by decide
  unfold auth_format
  rw [e1, e2, e3, e4, e5]
  simp only [List.append_assoc, List.cons_append]

/-- Without line feeds in the text values, the formatted text determines the
five values. -/
theorem auth_format_injective (a b : auth) (ha : lineFree a) (hb : lineFree b)
    (h : auth_format a = auth_format b) : fieldValues a = fieldValues b := by
  rw [auth_format_lines, auth_format_lines] at h
  obtain ⟨hu, h⟩ := append_sep_inj LF _ _ _ _ ha.1 hb.1 (List.append_cancel_left h)
  obtain ⟨hp, h⟩ := append_sep_inj LF _ _ _ _ ha.2.1 hb.2.1 (List.append_cancel_left h)
  obtain ⟨hc, h⟩ := append_sep_inj LF _ _ _ _ ha.2.2.1 hb.2.2.1 (List.append_cancel_left h)
  obtain ⟨hi, h⟩ := append_sep_inj LF _ _ _ _ ha.2.2.2 hb.2.2.2 (List.append_cancel_left h)
  have hd := fmt_d_injective _ _ (List.append_cancel_right (List.append_cancel_left h))
  simp only [fieldValues, hu, hp, hc, hi, hd]

theorem strlen_replicate (n c : Nat) (hc : c ≠ NUL) : strlen (List.replicate n c) = n := by
  rw [strlen, cstr_of_noNul _ (fun x hx => by rw [List.eq_of_mem_replicate hx]; exact hc),
    List.length_replicate]

/-- C1, as stated, fails.  Each text member of `credBig` is shorter than
`CRED_BUF_SIZE`, yet the bytes sent are not the five lines and the blank line:
`write_buf` holds only the first 1023 bytes of them.  And `credSplitA`,
`credSplitB`, both within the bound, differ in user name and password and are
sent as the same bytes, so the values cannot be recovered. -/
theorem C1_counterexample :
    (strlen credBig.username < CRED_BUF_SIZE ∧ strlen credBig.password < CRED_BUF_SIZE ∧
      strlen credBig.common_name < CRED_BUF_SIZE ∧ strlen credBig.untrusted_ip < CRED_BUF_SIZE ∧
      (authenticate cfgTcp (envReply (bytes "OK\n")) credBig).sent ≠
        some (bytes "username=" ++ cstr credBig.username ++ bytes "\npassword=" ++
          cstr credBig.password ++ bytes "\ncommon_name=" ++ cstr credBig.common_name ++
          bytes "\nhost=" ++ cstr credBig.untrusted_ip ++ bytes "\nport=" ++
          fmt_d credBig.untrusted_port ++ bytes "\n\n")) ∧
    (fieldValues credSplitA ≠ fieldValues credSplitB ∧
      (authenticate cfgTcp (envReply (bytes "OK\n")) credSplitA).sent =
        (authenticate cfgTcp (envReply (bytes "OK\n")) credSplitB).sent ∧
      (authenticate cfgTcp (envReply (bytes "OK\n")) credSplitA).sent =
        some (bytes "username=a\npassword=b\npassword=\ncommon_name=\nhost=\nport=0\n\n")) := by
  have hu : strlen credBig.username = 511 := strlen_replicate 511 97 (by decide)
  have hp : strlen credBig.password = 511 := strlen_replicate 511 98 (by decide)
  refine ⟨⟨?_, ?_, by decide, by decide, ?_⟩, by decide, by decide, by decide⟩
  · rw [hu]; decide
  · rw [hp]; decide
  · rw [authenticate_sent cfgTcp _ credBig 3 (by decide)]
    intro h
    have hlen := request_length_le credBig
    rw [Option.some.inj h] at hlen
    have hsize : requestSize credBig = 1069 := by
      unfold requestSize
      rw [hu, hp]
      rfl
    have := auth_format_length credBig
    unfold auth_format at this
    rw [this, hsize] at hlen
    revert hlen
    decide

/-- C1 (amended): when the formatted block has at most 1023 bytes (the room of
`write_buf`), the bytes `authenticate` sends are exactly the five lines
username, password, common_name, host, port in that order, each value verbatim,
the port in decimal, then a blank line; and two such records whose text values
hold no line feed and that are sent as the same bytes have the same five
values. -/
theorem C1_request_layout (cfg : Config) (env : Env) (a b : auth) (sock : Int)
    (hconn : (srv_connect cfg env).sock = some sock)
    (hfit : requestSize a ≤ GEN_BUF_SIZE - 1) :
    (authenticate cfg env a).sent =
      some (bytes "username=" ++ cstr a.username ++ bytes "\npassword=" ++ cstr a.password ++
        bytes "\ncommon_name=" ++ cstr a.common_name ++ bytes "\nhost=" ++
        cstr a.untrusted_ip ++ bytes "\nport=" ++ fmt_d a.untrusted_port ++ bytes "\n\n") ∧
    (lineFree a → lineFree b → requestSize b ≤ GEN_BUF_SIZE - 1 →
      (authenticate cfg env b).sent = (authenticate cfg env a).sent →
      fieldValues b = fieldValues a) := by
  constructor
  · rw [authenticate_sent cfg env a sock hconn, request_of_fit a hfit]
    rfl
  · intro ha hb hfitb hsent
    rw [authenticate_sent cfg env a sock hconn, authenticate_sent cfg env b sock hconn,
      request_of_fit a hfit, request_of_fit b hfitb] at hsent
    exact auth_format_injective b a hb ha (Option.some.inj hsent)

theorem C1_request_layout_witness :
    (authenticate cfgTcp (envReply (bytes "OK\n")) credBob).sent =
      some (bytes "username=" ++ cstr credBob.username ++ bytes "\npassword=" ++
        cstr credBob.password ++ bytes "\ncommon_name=" ++ cstr credBob.common_name ++
        bytes "\nhost=" ++ cstr credBob.untrusted_ip ++ bytes "\nport=" ++
        fmt_d credBob.untrusted_port ++ bytes "\n\n") ∧
    fieldValues credBobPadded = fieldValues credBob :=
  ⟨(C1_request_layout cfgTcp (envReply (bytes "OK\n")) credBob credBobPadded 3 (by decide)
      (by decide)).1,
    (C1_request_layout cfgTcp (envReply (bytes "OK\n")) credBob credBobPadded 3 (by decide)
      (by decide)).2 ⟨by decide, by decide, by decide, by decide⟩
      ⟨by decide, by decide, by decide, by decide⟩ (by decide) (by decide)⟩

/-- The request of the witness, spelled out. -/
theorem request_example : request credBob =
    bytes "username=bob\npassword=secret\ncommon_name=bob.example\nhost=10.0.0.7\nport=40123\n\n" := by
  decide

/-! ## Exit status, transport selection, connection failures -/

/-- `srv_connect` hands back a stream exactly when the name is resolved (TCP
branch only) and `socket`, `connect` and `fdopen` all succeed; a failing `bind`
does not matter. -/
theorem srv_connect_sock_iff (cfg : Config) (env : Env) :
    (∃ sock, (srv_connect cfg env).sock = some sock) ↔
      ((cfg.hostname.headD NUL = SLASH ∨ env.gethostbyname (cstr cfg.hostname) ≠ none) ∧
        0 ≤ env.socket ∧ 0 ≤ env.connect ∧ env.fdopen = true) := by
  have key : (∃ sock, (if sys_connect env env.socket < 0 then (none : Option Int)
      else if sys_fdopen env env.socket = true then some env.socket else none) = some sock) ↔
      (0 ≤ env.socket ∧ 0 ≤ env.connect ∧ env.fdopen = true) := by
    unfold sys_connect sys_fdopen
    by_cases h1 : env.socket < 0
    · simp only [h1, if_true]
      constructor
      · rintro ⟨_, h⟩; simp at h
      · rintro ⟨h, _⟩; omega
    · simp only [h1, if_false]
      by_cases h2 : env.connect < 0
      · simp only [h2, if_true]
        constructor
        · rintro ⟨_, h⟩; simp at h
        · rintro ⟨_, h, _⟩; omega
      · simp only [h2, if_false]
        by_cases h3 : env.fdopen = true
        · simp only [h3, if_true]
          exact ⟨fun _ => ⟨by omega, by omega, trivial⟩, fun _ => ⟨_, rfl⟩⟩
        · simp only [h3, if_false]
          constructor
          · rintro ⟨_, h⟩; simp at h
          · rintro ⟨_, _, h⟩; exact Bool.noConfusion h
  have hsock : (srv_connect cfg env).sock =
      if cfg.hostname.headD NUL = SLASH ∨ env.gethostbyname (cstr cfg.hostname) ≠ none then
        (if sys_connect env env.socket < 0 then (none : Option Int)
          else if sys_fdopen env env.socket = true then some env.socket else none)
      else none := by
    unfold srv_connect srv_connect_fdopen
    by_cases hs : cfg.hostname.headD NUL = SLASH
    · simp only [hs, if_true, true_or]
      split <;> split <;> rfl
    · simp only [hs, if_false, false_or]
      cases hg : env.gethostbyname (cstr cfg.hostname) with
      | none => simp
      | some h =>
        simp only [ne_eq, not_false_eq_true, if_true, reduceCtorEq]
        split <;> split <;> rfl
  rw [hsock]
  by_cases hc : cfg.hostname.headD NUL = SLASH ∨ env.gethostbyname (cstr cfg.hostname) ≠ none
  · rw [if_pos hc, key]
    exact ⟨fun h => ⟨hc, h⟩, fun h => h.2⟩
  · rw [if_neg hc]
    constructor
    · rintro ⟨_, h⟩; simp at h
    · rintro ⟨h, _⟩; exact absurd h hc

/-- `authenticate` returns 1 exactly when `srv_connect` handed back a stream
and `fgets` returned a buffer whose string has 3 bytes or more and starts with
OK in any letter case. -/
theorem authenticate_one_iff (cfg : Config) (env : Env) (ptr : auth) :
    (authenticate cfg env ptr).result = 1 ↔
      ((∃ sock, (srv_connect cfg env).sock = some sock) ∧
        ∃ read_buf, (fgets GEN_BUF_SIZE env.reply).1 = some read_buf ∧ 3 ≤ strlen read_buf ∧
          startsWithOK (cstr read_buf) = true) := by
  cases hs : (srv_connect cfg env).sock with
  | none =>
    rw [authenticate_not_connected cfg env ptr hs]
    constructor
    · intro h; simp at h
    · rintro ⟨⟨_, h⟩, _⟩; simp at h
  | some sock =>
    cases hf : (fgets GEN_BUF_SIZE env.reply).1 with
    | none =>
      rw [authenticate_no_response cfg env ptr sock hs hf]
      constructor
      · intro h; simp at h
      · rintro ⟨_, _, h, _⟩; simp at h
    | some rb =>
      by_cases hlen : strlen rb < 3
      · rw [authenticate_invalid cfg env ptr sock rb hs hf hlen]
        constructor
        · intro h; simp at h
        · rintro ⟨_, rb', h, h3, _⟩
          simp only [Option.some.injEq] at h
          subst h
          omega
      · cases hok : startsWithOK (cstr rb) with
        | true =>
          rw [authenticate_succeeded cfg env ptr sock rb hs hf (by omega) hok]
          exact ⟨fun _ => ⟨⟨sock, rfl⟩, rb, rfl, by omega, hok⟩, fun _ => rfl⟩
        | false =>
          rw [authenticate_failed cfg env ptr sock rb hs hf (by omega) hok]
          constructor
          · intro h; simp at h
          · rintro ⟨_, rb', h, _, h4⟩
            simp only [Option.some.injEq] at h
            subst h
            rw [hok] at h4
            exact Bool.noConfusion h4

theorem fgetsBytes_initial_all (k : Nat) (l : List Nat) : fgetsBytes k l <+: l := by
  induction l generalizing k with
  | nil => cases k <;> exact List.prefix_refl _
  | cons a l ih =>
    cases k with
    | zero => exact List.nil_prefix
    | succ k =>
      rw [fgetsBytes]
      split
      · exact ⟨l, rfl⟩
      · exact (List.prefix_cons_inj a).mpr (ih k)

theorem startsWithOK_of_initial (p l : List Nat) (h : p <+: l) (hp : startsWithOK p = true) :
    startsWithOK l = true := by
  obtain ⟨t, rfl⟩ := h
  match p, hp with
  | a :: b :: r, hp => exact hp

/-- The string in the buffer that `fgets` filled starts with OK only when the
stream does. -/
theorem startsWithOK_of_fgets (n : Nat) (s : Stream) (rb : List Nat)
    (hf : (fgets n s).1 = some rb) (hok : startsWithOK (cstr rb) = true) :
    startsWithOK s.bytes = true := by
  obtain ⟨_, hbuf, _⟩ := fgets_some_length n s rb hf
  have h1 : cstr rb <+: fgetsBytes (n - 1) s.bytes := by
    rw [hbuf, cstr_append_nul]
    exact List.takeWhile_prefix _
  exact startsWithOK_of_initial _ _ (h1.trans (fgetsBytes_initial_all _ _)) hok

/-- After a reply of fewer than 3 bytes as read, the string in the buffer has
fewer than 3 bytes. -/
theorem strlen_of_short_reply (s : Stream) (rb line after : List Nat)
    (hf : (fgets GEN_BUF_SIZE s).1 = some rb) (hreply : s.bytes = line ++ after)
    (hend : after = [] ∨ line.getLast? = some LF) (hlen : line.length < 3) : strlen rb < 3 := by
  obtain ⟨_, hbuf, _⟩ := fgets_some_length _ _ _ hf
  have hle : (fgetsBytes (GEN_BUF_SIZE - 1) s.bytes).length ≤ line.length := by
    rw [hreply]
    rcases hend with he | he
    · rw [he, List.append_nil]; exact fgetsBytes_length_le _ _
    · exact fgetsBytes_length_le_of_mem _ _ _ (List.mem_of_getLast?_eq_some he)
  have := strlen_append_nul_le (fgetsBytes (GEN_BUF_SIZE - 1) s.bytes)
  rw [← hbuf] at this
  omega

/-- C7: the status `main` returns after the exchange is 0 exactly when
`authenticate` returned 1 and 1 exactly when it returned 0, and `authenticate`
returns nothing else.  The status is 0 exactly when the name was resolved (TCP
branch), `socket`, `connect` and `fdopen` succeeded and the reply read has 3
bytes or more and starts with OK.  So every failed exchange gives status 1: a
failed resolution, a failed `socket`, `connect` or `fdopen`, no response, a
reply of fewer than 3 bytes, a reply that does not start with OK.  The alarm
handler `sigh_alrm` leaves with status 1. -/
theorem C7_exit_status (cfg : Config) (env : Env) (auth_str : auth) (num : Int) :
    (main_exit cfg env auth_str = 0 ↔ (authenticate cfg env auth_str).result = 1) ∧
    (main_exit cfg env auth_str = 1 ↔ (authenticate cfg env auth_str).result = 0) ∧
    ((authenticate cfg env auth_str).result = 0 ∨ (authenticate cfg env auth_str).result = 1) ∧
    (main_exit cfg env auth_str = 0 ↔
      ((cfg.hostname.headD NUL = SLASH ∨ env.gethostbyname (cstr cfg.hostname) ≠ none) ∧
        0 ≤ env.socket ∧ 0 ≤ env.connect ∧ env.fdopen = true) ∧
      ∃ read_buf, (fgets GEN_BUF_SIZE env.reply).1 = some read_buf ∧ 3 ≤ strlen read_buf ∧
        startsWithOK (cstr read_buf) = true) ∧
    (cfg.hostname.headD NUL ≠ SLASH → env.gethostbyname (cstr cfg.hostname) = none →
      main_exit cfg env auth_str = 1) ∧
    (env.socket < 0 ∨ env.connect < 0 ∨ env.fdopen = false →
      main_exit cfg env auth_str = 1) ∧
    (env.reply.bytes = [] → main_exit cfg env auth_str = 1) ∧
    (∀ line after, env.reply.bytes = line ++ after →
      (after = [] ∨ line.getLast? = some LF) → line.length < 3 →
      main_exit cfg env auth_str = 1) ∧
    (startsWithOK env.reply.bytes = false → main_exit cfg env auth_str = 1) ∧
    (sigh_alrm cfg num).2 = 1 := by
  have h01 := authenticate_result cfg env auth_str
  have hiff := authenticate_one_iff cfg env auth_str
  rw [srv_connect_sock_iff] at hiff
  have e0 : main_exit cfg env auth_str = 0 ↔ (authenticate cfg env auth_str).result = 1 := by
    unfold main_exit
    rcases h01 with h | h <;> simp [h]
  have e1 : main_exit cfg env auth_str = 1 ↔ (authenticate cfg env auth_str).result = 0 := by
    unfold main_exit
    rcases h01 with h | h <;> simp [h]
  have fail : (authenticate cfg env auth_str).result ≠ 1 → main_exit cfg env auth_str = 1 := by
    intro hne
    rcases h01 with h | h
    · exact e1.mpr h
    · exact absurd h hne
  refine ⟨e0, e1, h01, e0.trans hiff, ?_, ?_, ?_, ?_, ?_, rfl⟩
  · intro hs hg
    apply fail
    intro h
    rcases (hiff.mp h).1.1 with h' | h'
    · exact hs h'
    · exact h' hg
  · intro hc
    apply fail
    intro h
    obtain ⟨_, h1, h2, h3⟩ := (hiff.mp h).1
    rcases hc with hc | hc | hc
    · omega
    · omega
    · rw [h3] at hc; exact Bool.noConfusion hc
  · intro he
    apply fail
    intro h
    obtain ⟨_, rb, hf, _⟩ := hiff.mp h
    rw [fgets_none_of_empty _ _ he] at hf
    exact Option.noConfusion hf
  · intro line after hreply hend hlen
    apply fail
    intro h
    obtain ⟨_, rb, hf, h3, _⟩ := hiff.mp h
    have := strlen_of_short_reply env.reply rb line after hf hreply hend hlen
    omega
  · intro hno
    apply fail
    intro h
    obtain ⟨_, rb, hf, _, hok⟩ := hiff.mp h
    rw [startsWithOK_of_fgets _ _ rb hf hok] at hno
    exact Bool.noConfusion hno

theorem C7_exit_status_witness :
    main_exit cfgTcp envNoResolve credBob = 1 ∧
    main_exit cfgTcp envNoConnect credBob = 1 ∧
    main_exit cfgTcp (envReply []) credBob = 1 ∧
    main_exit cfgTcp (envReply (bytes "K\n")) credBob = 1 ∧
    main_exit cfgTcp (envReply (bytes "FAIL: bad pw\n")) credBob = 1 ∧
    main_exit cfgTcp (envReply (bytes "OK\n")) credBob = 0 :=
  ⟨(C7_exit_status cfgTcp envNoResolve credBob 14).2.2.2.2.1 (by decide) rfl,
    (C7_exit_status cfgTcp envNoConnect credBob 14).2.2.2.2.2.1 (Or.inr (Or.inl (by decide))),
    (C7_exit_status cfgTcp (envReply []) credBob 14).2.2.2.2.2.2.1 rfl,
    (C7_exit_status cfgTcp (envReply (bytes "K\n")) credBob 14).2.2.2.2.2.2.2.1 (bytes "K\n") []
      (by decide) (Or.inl rfl) (by decide),
    (C7_exit_status cfgTcp (envReply (bytes "FAIL: bad pw\n")) credBob 14).2.2.2.2.2.2.2.2.1
      (by decide),
    (C7_exit_status cfgTcp (envReply (bytes "OK\n")) credBob 14).2.2.2.1.mpr
      ⟨⟨Or.inr (by decide), by decide, by decide, rfl⟩,
        bytes "OK\n" ++ [NUL], by decide, by decide, by decide⟩⟩

/-- C8: the first call of `srv_connect` is the creation of a unix-domain socket
when the first byte of the hostname is a slash, and the resolution of the
hostname in every other case (the empty string included); the unix socket is
created in the first case only, the name resolved in the second case only. -/
theorem C8_transport_selection (cfg : Config) (env : Env) :
    (srv_connect cfg env).trace.head? =
      (if cfg.hostname.headD NUL = SLASH then some Sys.socket_unix
        else some (Sys.gethostbyname (cstr cfg.hostname))) ∧
    (Sys.socket_unix ∈ (srv_connect cfg env).trace ↔ cfg.hostname.headD NUL = SLASH) ∧
    ((∃ name, Sys.gethostbyname name ∈ (srv_connect cfg env).trace) ↔
      cfg.hostname.headD NUL ≠ SLASH) ∧
    (Sys.socket_inet ∈ (srv_connect cfg env).trace ↔
      (cfg.hostname.headD NUL ≠ SLASH ∧ env.gethostbyname (cstr cfg.hostname) ≠ none)) := by
  unfold srv_connect srv_connect_fdopen
  by_cases h : cfg.hostname.headD NUL = SLASH
  · simp only [h, if_true]
    split <;> split <;> simp
  · have h' : ¬ cfg.hostname.head?.getD NUL = SLASH := by simpa using h
    simp only [h, if_false]
    split
    · rename_i hg
      simp [hg, h']
    · rename_i hent hg
      simp only [hg]
      split <;> split <;> simp [h']

/-- The empty hostname takes the TCP branch: the only call is the resolution
of the empty name when that fails. -/
theorem srv_connect_empty_hostname (env : Env) (port timeout verbose : Int)
    (h : env.gethostbyname [] = none) :
    (srv_connect ⟨[], port, timeout, verbose⟩ env).trace = [Sys.gethostbyname []] := by
  simp [srv_connect, cstr, h, NUL, SLASH]

/-- A hostname that is a socket path: a unix socket is created and connected,
nothing is resolved and no file is looked up. -/
theorem srv_connect_unix_example :
    (srv_connect cfgUnix (envReply [])).trace =
      [Sys.socket_unix, Sys.connect_unix 3 (strncpy (zeroed 108) cfgUnix.hostname 108) 20,
        Sys.fdopen 3] := by
  decide

/-- A failing `socket` or `connect` makes `srv_connect` return NULL, and
`authenticate` then returns 0 without formatting or sending anything. -/
theorem connect_failure_is_fatal (cfg : Config) (env : Env) (ptr : auth)
    (h : env.socket < 0 ∨ env.connect < 0) :
    (srv_connect cfg env).sock = none ∧ (authenticate cfg env ptr).result = 0 ∧
      (authenticate cfg env ptr).sent = none := by
  have hc : sys_connect env env.socket < 0 := by
    unfold sys_connect
    rcases h with h | h
    · simp [h]
    · split
      · decide
      · exact h
  have hs : (srv_connect cfg env).sock = none := by
    unfold srv_connect
    simp only
    split
    · simp [hc]
    · split
      · rfl
      · simp [hc]
  rw [authenticate_not_connected cfg env ptr hs]
  exact ⟨hs, rfl, rfl⟩

/-- C9, evaluated where the code departs from it: `bind` fails, the failure is
logged, and `srv_connect` still connects and returns the stream; `authenticate`
sends the request and returns 1. -/
theorem C9_bind_failure_ignored :
    sys_bind envBindFails envBindFails.socket < 0 ∧
    (srv_connect cfgTcp envBindFails).log =
      [LogMsg.connecting_tcp DEFAULT_HOSTNAME DEFAULT_PORT,
        LogMsg.unable_bind DEFAULT_HOSTNAME DEFAULT_PORT] ∧
    (srv_connect cfgTcp envBindFails).sock = some 3 ∧
    (authenticate cfgTcp envBindFails credBob).sent = some (request credBob) ∧
    (authenticate cfgTcp envBindFails credBob).result = 1 := by
  decide

/-! ## The credential collectors -/

theorem cstr_replicate_nul (k : Nat) : cstr (List.replicate k NUL) = [] := by
  cases k with
  | zero => rfl
  | succ k => rw [List.replicate_succ, cstr_cons_nul]

/-- In a buffer of at most `n` bytes, `strncpy` leaves the first `n` bytes of
the source string. -/
theorem cstr_strncpy (dst src : List Nat) (n : Nat) (h : dst.length ≤ n) :
    cstr (strncpy dst src n) = (cstr src).take n := by
  have hno : ∀ c ∈ (cstr src).take n, c ≠ NUL :=
    fun c hc => cstr_noNul src c (List.mem_of_mem_take hc)
  unfold strncpy
  rw [List.drop_of_length_le h, List.append_nil, cstr_append_of_noNul _ _ hno,
    cstr_replicate_nul, List.append_nil]

theorem fgetsBytes_take (k : Nat) (l : List Nat) (h : LF ∉ l.take k) :
    fgetsBytes k l = l.take k := by
  induction l generalizing k with
  | nil => cases k <;> rfl
  | cons a l ih =>
    cases k with
    | zero => rfl
    | succ k =>
      have ha : a ≠ LF := fun e => h (by simp [e])
      have hl : LF ∉ l.take k := fun e => h (by simp [e])
      rw [fgetsBytes, if_neg ha, ih k hl, List.take_succ_cons]

/-- From a stream that starts with a long run of bytes without a line feed,
`fgets` takes as many bytes as the buffer has room for and leaves the others. -/
theorem fgets_long (n : Nat) (s : Stream) (input rest : List Nat) (hs : s.bytes = input ++ rest)
    (hlf : LF ∉ input) (hn : 0 < n - 1) (hlen : n - 1 ≤ input.length) :
    fgets n s = (some (input.take (n - 1) ++ [NUL]), ⟨input.drop (n - 1) ++ rest, s.err⟩) := by
  have htake : (input ++ rest).take (n - 1) = input.take (n - 1) := by
    rw [List.take_append_of_le_length hlen]
  have hl : fgetsBytes (n - 1) (input ++ rest) = input.take (n - 1) := by
    rw [fgetsBytes_take _ _ (by rw [htake]; exact fun e => hlf (List.mem_of_mem_take e)),
      htake]
  have hlen2 : (input.take (n - 1)).length = n - 1 := by
    rw [List.length_take]; omega
  have hne : input.take (n - 1) ≠ [] := by
    intro e; rw [e] at hlen2; simp at hlen2; omega
  have hdrop : List.drop (n - 1) (input ++ rest) = input.drop (n - 1) ++ rest := by
    rw [List.drop_append_of_le_length hlen]
  unfold fgets
  simp only [hs, hl, hlen2, hdrop]
  simp [hne]

theorem strip_newline_of_not_mem (l : List Nat) (hnul : ∀ c ∈ l, c ≠ NUL) (hlf : LF ∉ l) :
    strip_newline (l ++ [NUL]) = l ++ [NUL] := by
  unfold strip_newline
  have hs : strlen (l ++ [NUL]) = l.length := by
    rw [strlen, cstr_append_nul, cstr_of_noNul _ hnul]
  simp only [hs]
  split
  · rename_i h
    exfalso
    have hi : l.length - 1 < l.length := by omega
    have hget : (l ++ [NUL]).getD (l.length - 1) NUL = l[l.length - 1] := by
      rw [List.getD_eq_getElem?_getD, List.getElem?_append_left hi, List.getElem?_eq_getElem hi]
      rfl
    rw [hget] at h
    exact hlf (h.2 ▸ List.getElem_mem hi)
  · rfl

theorem credBufRoom : 0 < CRED_BUF_SIZE - 1 := by decide

/-- The user name read from a credentials file whose first line is longer than
the buffer: its first 511 bytes. -/
theorem credentials_retr_file_username (p : Proc) (ptr : auth) (name : List Nat) (fd : Stream)
    (input rest : List Nat) (hbuf : ptr.username.length = CRED_BUF_SIZE)
    (hopen : p.fopen name = some fd) (hfile : fd.bytes = input ++ rest)
    (hnul : ∀ c ∈ input, c ≠ NUL) (hlf : LF ∉ input) (hlen : CRED_BUF_SIZE - 1 ≤ input.length) :
    cstr (credentials_retr p ptr (some name)).2.1.username = input.take (CRED_BUF_SIZE - 1) := by
  have hf := fgets_long CRED_BUF_SIZE fd input rest hfile hlf credBufRoom hlen
  have hnul' : ∀ c ∈ input.take (CRED_BUF_SIZE - 1), c ≠ NUL :=
    fun c hc => hnul c (List.mem_of_mem_take hc)
  have hlf' : LF ∉ input.take (CRED_BUF_SIZE - 1) := fun e => hlf (List.mem_of_mem_take e)
  have hstored : cstr (strncpy ptr.username
      (strip_newline (input.take (CRED_BUF_SIZE - 1) ++ [NUL])) CRED_BUF_SIZE) =
      input.take (CRED_BUF_SIZE - 1) := by
    rw [strip_newline_of_not_mem _ hnul' hlf', cstr_strncpy _ _ _ (le_of_eq hbuf),
      cstr_append_nul, cstr_of_noNul _ hnul']
    apply List.take_of_length_le
    rw [List.length_take]
    exact le_trans (Nat.min_le_left _ _) (Nat.sub_le _ _)
  unfold credentials_retr
  simp only [hopen, hf]
  split
  · exact hstored
  · unfold credentials_retr_env
    exact hstored

/-- The password read from a credentials file whose second line is longer than
the buffer: its first 511 bytes, and the call returns 1. -/
theorem credentials_retr_file_password (p : Proc) (ptr : auth) (name : List Nat) (fd : Stream)
    (uline input rest : List Nat) (hbuf : ptr.password.length = CRED_BUF_SIZE)
    (hopen : p.fopen name = some fd) (hfile : fd.bytes = uline ++ LF :: (input ++ rest))
    (hu : LF ∉ uline) (hulen : uline.length < CRED_BUF_SIZE - 1)
    (hnul : ∀ c ∈ input, c ≠ NUL) (hlf : LF ∉ input) (hlen : CRED_BUF_SIZE - 1 ≤ input.length) :
    cstr (credentials_retr p ptr (some name)).2.1.password = input.take (CRED_BUF_SIZE - 1) ∧
      (credentials_retr p ptr (some name)).1 = 1 := by
  have hline : fgetsBytes (CRED_BUF_SIZE - 1) fd.bytes = uline ++ [LF] := by
    rw [hfile]; exact fgetsBytes_line uline _ _ hu hulen
  have hf1 : fgets CRED_BUF_SIZE fd = (some (uline ++ [LF] ++ [NUL]), ⟨input ++ rest, fd.err⟩) := by
    unfold fgets
    simp only [hline]
    simp [hfile]
  have hf2 := fgets_long CRED_BUF_SIZE ⟨input ++ rest, fd.err⟩ input rest rfl hlf credBufRoom hlen
  have hnul' : ∀ c ∈ input.take (CRED_BUF_SIZE - 1), c ≠ NUL :=
    fun c hc => hnul c (List.mem_of_mem_take hc)
  have hlf' : LF ∉ input.take (CRED_BUF_SIZE - 1) := fun e => hlf (List.mem_of_mem_take e)
  have hstored : cstr (strncpy ptr.password
      (strip_newline (input.take (CRED_BUF_SIZE - 1) ++ [NUL])) CRED_BUF_SIZE) =
      input.take (CRED_BUF_SIZE - 1) := by
    rw [strip_newline_of_not_mem _ hnul' hlf', cstr_strncpy _ _ _ (le_of_eq hbuf),
      cstr_append_nul, cstr_of_noNul _ hnul']
    apply List.take_of_length_le
    rw [List.length_take]
    exact le_trans (Nat.min_le_left _ _) (Nat.sub_le _ _)
  unfold credentials_retr
  simp only [hopen, hf1, hf2]
  unfold credentials_retr_env
  exact ⟨hstored, trivial⟩

theorem credentials_retr_env_username (p : Proc) (ptr : auth) (tmp : List Nat)
    (h : p.getenv (bytes "username") = some tmp) :
    (credentials_retr p ptr none).2.1.username = strncpy ptr.username tmp CRED_BUF_SIZE ∧
      (credentials_retr p ptr none).1 = 1 := by
  unfold credentials_retr credentials_retr_env
  simp only [h]
  split <;> exact ⟨rfl, trivial⟩

theorem credentials_retr_env_password (p : Proc) (ptr : auth) (tmp : List Nat)
    (h : p.getenv (bytes "password") = some tmp) :
    (credentials_retr p ptr none).2.1.password = strncpy ptr.password tmp CRED_BUF_SIZE ∧
      (credentials_retr p ptr none).1 = 1 := by
  unfold credentials_retr credentials_retr_env
  simp only [h]
  split <;> exact ⟨rfl, trivial⟩

theorem longValue_noNul : ∀ c ∈ longValue, c ≠ NUL := by
  intro c hc
  rw [List.eq_of_mem_replicate hc]
  decide

theorem longValue_noLF : LF ∉ longValue := by
  intro hc
  have := List.eq_of_mem_replicate hc
  revert this
  decide

theorem longValue_length : longValue.length = 600 := List.length_replicate _ _

theorem authstruct_init_lengths (fresh : auth) :
    (authstruct_init fresh).username.length = CRED_BUF_SIZE ∧
      (authstruct_init fresh).password.length = CRED_BUF_SIZE :=
  ⟨List.length_replicate _ _, List.length_replicate _ _⟩

/-- A source string of `n` bytes or more fills a buffer of `n` bytes with its
first `n` bytes; no NUL is written. -/
theorem strncpy_long (dst src : List Nat) (n : Nat) (hd : dst.length ≤ n)
    (hs : n ≤ strlen src) : strncpy dst src n = (cstr src).take n := by
  unfold strlen at hs
  unfold strncpy
  rw [List.drop_of_length_le hd, Nat.sub_eq_zero_of_le hs]
  simp

/-- A line read whole loses its line feed. -/
theorem cstr_strip_newline_lf (l : List Nat) (hnul : ∀ c ∈ l, c ≠ NUL) :
    cstr (strip_newline (l ++ [LF] ++ [NUL])) = l := by
  have hnul2 : ∀ c ∈ l ++ [LF], c ≠ NUL := by
    intro c hc
    rcases List.mem_append.mp hc with h | h
    · exact hnul c h
    · simp only [List.mem_singleton] at h; subst h; decide
  have hs : strlen (l ++ [LF] ++ [NUL]) = l.length + 1 := by
    rw [strlen, cstr_append_nul, cstr_of_noNul _ hnul2]
    simp
  have hget : (l ++ [LF] ++ [NUL]).getD l.length NUL = LF := by
    rw [List.append_assoc, List.getD_eq_getElem?_getD, List.getElem?_append_right (le_refl _)]
    simp
  have hset : (l ++ [LF] ++ [NUL]).set l.length NUL = l ++ NUL :: [NUL] := by
    rw [List.append_assoc, List.set_append_right _ _ (le_refl _)]
    simp
  unfold strip_newline
  simp only [hs, Nat.add_sub_cancel, hget]
  rw [if_pos ⟨by omega, trivial⟩, hset, cstr_append_nul, cstr_of_noNul _ hnul]

/-- What the second `fgets` of `credentials_retr` stores when it is left with
the end of an over-long line: the next bytes of that line, at most 511. -/
theorem cstr_second_read (dst d rest : List Nat) (err : Bool) (hdst : dst.length = CRED_BUF_SIZE)
    (hnul : ∀ c ∈ d, c ≠ NUL) (hlf : LF ∉ d) :
    ∃ fbuf fd2, fgets CRED_BUF_SIZE ⟨d ++ LF :: rest, err⟩ = (some fbuf, fd2) ∧
      cstr (strncpy dst (strip_newline fbuf) CRED_BUF_SIZE) = d.take (CRED_BUF_SIZE - 1) := by
  by_cases hlen : CRED_BUF_SIZE - 1 ≤ d.length
  · refine ⟨_, _, fgets_long CRED_BUF_SIZE ⟨d ++ LF :: rest, err⟩ d (LF :: rest) rfl hlf
      credBufRoom hlen, ?_⟩
    have hnul' : ∀ c ∈ d.take (CRED_BUF_SIZE - 1), c ≠ NUL :=
      fun c hc => hnul c (List.mem_of_mem_take hc)
    have hlf' : LF ∉ d.take (CRED_BUF_SIZE - 1) := fun e => hlf (List.mem_of_mem_take e)
    rw [strip_newline_of_not_mem _ hnul' hlf', cstr_strncpy _ _ _ (le_of_eq hdst),
      cstr_append_nul, cstr_of_noNul _ hnul']
    apply List.take_of_length_le
    rw [List.length_take]
    exact le_trans (Nat.min_le_left _ _) (Nat.sub_le _ _)
  · have hshort : d.length < CRED_BUF_SIZE - 1 := by omega
    have hline : fgetsBytes (CRED_BUF_SIZE - 1) (d ++ LF :: rest) = d ++ [LF] :=
      fgetsBytes_line d rest _ hlf hshort
    have hf : fgets CRED_BUF_SIZE ⟨d ++ LF :: rest, err⟩ =
        (some (d ++ [LF] ++ [NUL]), ⟨rest, err⟩) := by
      unfold fgets
      simp only [hline]
      simp
    refine ⟨_, _, hf, ?_⟩
    rw [cstr_strncpy _ _ _ (le_of_eq hdst), cstr_strip_newline_lf d hnul,
      List.take_of_length_le (by unfold CRED_BUF_SIZE at *; omega),
      List.take_of_length_le (le_of_lt hshort)]

/-- A credentials file whose first line is longer than the buffer and ends
with a line feed: the first 511 bytes of the line become the user name, the
next bytes of the same line, at most 511, become the password, and the call
returns 1. -/
theorem credentials_retr_file_long_line (p : Proc) (ptr : auth) (name : List Nat) (fd : Stream)
    (input rest : List Nat) (hu : ptr.username.length = CRED_BUF_SIZE)
    (hp : ptr.password.length = CRED_BUF_SIZE) (hopen : p.fopen name = some fd)
    (hfile : fd.bytes = input ++ LF :: rest) (hnul : ∀ c ∈ input, c ≠ NUL) (hlf : LF ∉ input)
    (hlen : CRED_BUF_SIZE < input.length) :
    cstr (credentials_retr p ptr (some name)).2.1.username = input.take (CRED_BUF_SIZE - 1) ∧
      cstr (credentials_retr p ptr (some name)).2.1.password =
        (input.drop (CRED_BUF_SIZE - 1)).take (CRED_BUF_SIZE - 1) ∧
      (credentials_retr p ptr (some name)).1 = 1 := by
  have hlen1 : CRED_BUF_SIZE - 1 ≤ input.length := by omega
  have hf := fgets_long CRED_BUF_SIZE fd input (LF :: rest) hfile hlf credBufRoom hlen1
  have hnul' : ∀ c ∈ input.take (CRED_BUF_SIZE - 1), c ≠ NUL :=
    fun c hc => hnul c (List.mem_of_mem_take hc)
  have hlf' : LF ∉ input.take (CRED_BUF_SIZE - 1) := fun e => hlf (List.mem_of_mem_take e)
  have huser : cstr (strncpy ptr.username
      (strip_newline (input.take (CRED_BUF_SIZE - 1) ++ [NUL])) CRED_BUF_SIZE) =
      input.take (CRED_BUF_SIZE - 1) := by
    rw [strip_newline_of_not_mem _ hnul' hlf', cstr_strncpy _ _ _ (le_of_eq hu),
      cstr_append_nul, cstr_of_noNul _ hnul']
    apply List.take_of_length_le
    rw [List.length_take]
    exact le_trans (Nat.min_le_left _ _) (Nat.sub_le _ _)
  obtain ⟨fbuf, fd2, hf2, hpass⟩ := cstr_second_read ptr.password (input.drop (CRED_BUF_SIZE - 1))
    rest fd.err hp (fun c hc => hnul c (List.mem_of_mem_drop hc))
    (fun e => hlf (List.mem_of_mem_drop e))
  unfold credentials_retr
  simp only [hopen, hf, hf2]
  unfold credentials_retr_env
  exact ⟨huser, hpass, trivial⟩

theorem credentials_retr_env_pointers (p : Proc) (ptr : auth) :
    (credentials_retr p ptr none).2.1.common_name = (p.getenv (bytes "common_name")).getD [] ∧
      (credentials_retr p ptr none).2.1.untrusted_ip =
        (p.getenv (bytes "untrusted_ip")).getD [] := by
  unfold credentials_retr credentials_retr_env
  exact ⟨rfl, rfl⟩

/-- C6, as stated, fails.  A common name or client address of 600 bytes, given
with -C or -X or in the environment, is stored whole, longer than
`CRED_BUF_SIZE`; of a user name line of 600 bytes in the credentials file 511
bytes are stored, one less than `CRED_BUF_SIZE`; and the password line that
follows it is not stored at all: the password is the other 89 bytes of the
user name line. -/
theorem C6_counterexample :
    CRED_BUF_SIZE < strlen (main_option 67 longValue (authstruct_init credBob)).common_name ∧
    CRED_BUF_SIZE < strlen (main_option 88 longValue (authstruct_init credBob)).untrusted_ip ∧
    CRED_BUF_SIZE <
      strlen (credentials_retr procLong (authstruct_init credBob) none).2.1.common_name ∧
    CRED_BUF_SIZE <
      strlen (credentials_retr procLong (authstruct_init credBob) none).2.1.untrusted_ip ∧
    strlen (credentials_retr procLong (authstruct_init credBob)
      (some (bytes "credentials"))).2.1.username = CRED_BUF_SIZE - 1 ∧
    strlen (credentials_retr procLong (authstruct_init credBob)
      (some (bytes "credentials"))).2.1.password = 89 := by
  have hs : strlen longValue = 600 := strlen_replicate 600 97 (by decide)
  have h600 : CRED_BUF_SIZE < 600 := by decide
  have e1 : (main_option 67 longValue (authstruct_init credBob)).common_name = longValue := rfl
  have e2 : (main_option 88 longValue (authstruct_init credBob)).untrusted_ip = longValue := rfl
  have e3 : (credentials_retr procLong (authstruct_init credBob) none).2.1.common_name =
      longValue := rfl
  have e4 : (credentials_retr procLong (authstruct_init credBob) none).2.1.untrusted_ip =
      longValue := rfl
  obtain ⟨e5, e6, _⟩ := credentials_retr_file_long_line procLong (authstruct_init credBob)
    (bytes "credentials") ⟨longValue ++ LF :: (longValue ++ [LF]), false⟩ longValue
    (longValue ++ [LF]) (authstruct_init_lengths credBob).1 (authstruct_init_lengths credBob).2
    rfl rfl longValue_noNul longValue_noLF (by rw [longValue_length]; decide)
  rw [e1, e2, e3, e4, hs]
  refine ⟨h600, h600, h600, h600, ?_, ?_⟩
  · rw [strlen, e5, List.length_take, longValue_length]
    decide
  · rw [strlen, e6, List.length_take, List.length_drop, longValue_length]
    decide

/-- C6 (amended): for the user name and the password and every value longer
than `CRED_BUF_SIZE` = 512 bytes (without NUL byte).  `credentials_retr`
reading the environment and the options -U and -P store exactly the first 512
bytes of the value, which fill the buffer, and `credentials_retr` returns 1.
`credentials_retr` reading a credentials file whose first line is such a value
stores the first 511 bytes of the line as the user name and, when the line
ends with a line feed, returns 1 (the password is then taken from the same
line).  When the first line is shorter than 511 bytes and the second line is
such a value, the first 511 bytes of the second line are stored as the
password and the call returns 1.  The stored values have 512 and 511 bytes.
The common name and the client address, from the environment or the options -C
and -X, are stored whole. -/
theorem C6_truncation (p : Proc) (ptr : auth) (input : List Nat)
    (hnul : ∀ c ∈ input, c ≠ NUL) (hlong : CRED_BUF_SIZE < input.length)
    (hu : ptr.username.length = CRED_BUF_SIZE) (hp : ptr.password.length = CRED_BUF_SIZE) :
    (p.getenv (bytes "username") = some input →
      (credentials_retr p ptr none).2.1.username = input.take CRED_BUF_SIZE ∧
        (credentials_retr p ptr none).1 = 1) ∧
    (p.getenv (bytes "password") = some input →
      (credentials_retr p ptr none).2.1.password = input.take CRED_BUF_SIZE ∧
        (credentials_retr p ptr none).1 = 1) ∧
    (main_option 85 input ptr).username = input.take CRED_BUF_SIZE ∧
    (main_option 80 input ptr).password = input.take CRED_BUF_SIZE ∧
    (∀ name fd rest, LF ∉ input → p.fopen name = some fd → fd.bytes = input ++ rest →
      cstr (credentials_retr p ptr (some name)).2.1.username =
        input.take (CRED_BUF_SIZE - 1)) ∧
    (∀ name fd rest, LF ∉ input → p.fopen name = some fd → fd.bytes = input ++ LF :: rest →
      cstr (credentials_retr p ptr (some name)).2.1.username =
          input.take (CRED_BUF_SIZE - 1) ∧
        cstr (credentials_retr p ptr (some name)).2.1.password =
          (input.drop (CRED_BUF_SIZE - 1)).take (CRED_BUF_SIZE - 1) ∧
        (credentials_retr p ptr (some name)).1 = 1) ∧
    (∀ name fd uline rest, LF ∉ input → p.fopen name = some fd →
      fd.bytes = uline ++ LF :: (input ++ rest) → LF ∉ uline →
      uline.length < CRED_BUF_SIZE - 1 →
      cstr (credentials_retr p ptr (some name)).2.1.password =
          input.take (CRED_BUF_SIZE - 1) ∧
        (credentials_retr p ptr (some name)).1 = 1) ∧
    ((input.take CRED_BUF_SIZE).length = CRED_BUF_SIZE ∧
      (input.take (CRED_BUF_SIZE - 1)).length = CRED_BUF_SIZE - 1) ∧
    ((main_option 67 input ptr).common_name = input ∧
      (main_option 88 input ptr).untrusted_ip = input ∧
      (p.getenv (bytes "common_name") = some input →
        (credentials_retr p ptr none).2.1.common_name = input) ∧
      (p.getenv (bytes "untrusted_ip") = some input →
        (credentials_retr p ptr none).2.1.untrusted_ip = input)) := by
  have hin : cstr input = input := cstr_of_noNul _ hnul
  have hlen : CRED_BUF_SIZE - 1 ≤ input.length := by omega
  have hfull : CRED_BUF_SIZE ≤ strlen input := by rw [strlen, hin]; omega
  refine ⟨?_, ?_, ?_, ?_, ?_, ?_, ?_, ⟨?_, ?_⟩, rfl, rfl, ?_, ?_⟩
  · intro h
    obtain ⟨e, r⟩ := credentials_retr_env_username p ptr input h
    rw [e, strncpy_long _ _ _ (le_of_eq hu) hfull, hin]
    exact ⟨rfl, r⟩
  · intro h
    obtain ⟨e, r⟩ := credentials_retr_env_password p ptr input h
    rw [e, strncpy_long _ _ _ (le_of_eq hp) hfull, hin]
    exact ⟨rfl, r⟩
  · have e : (main_option 85 input ptr).username = strncpy ptr.username input CRED_BUF_SIZE :=
      rfl
    rw [e, strncpy_long _ _ _ (le_of_eq hu) hfull, hin]
  · have e : (main_option 80 input ptr).password = strncpy ptr.password input CRED_BUF_SIZE :=
      rfl
    rw [e, strncpy_long _ _ _ (le_of_eq hp) hfull, hin]
  · intro name fd rest hlf hopen hfile
    exact credentials_retr_file_username p ptr name fd input rest hu hopen hfile hnul hlf hlen
  · intro name fd rest hlf hopen hfile
    exact credentials_retr_file_long_line p ptr name fd input rest hu hp hopen hfile hnul hlf
      hlong
  · intro name fd uline rest hlf hopen hfile hul hulen
    exact credentials_retr_file_password p ptr name fd uline input rest hp hopen hfile hul hulen
      hnul hlf hlen
  · rw [List.length_take]
    omega
  · rw [List.length_take]
    omega
  · intro h
    rw [(credentials_retr_env_pointers p ptr).1, h]
    rfl
  · intro h
    rw [(credentials_retr_env_pointers p ptr).2, h]
    rfl

theorem C6_truncation_witness :
    ((credentials_retr procLong (authstruct_init credBob) none).2.1.username =
        longValue.take CRED_BUF_SIZE ∧
      (credentials_retr procLong (authstruct_init credBob) none).1 = 1) ∧
    (main_option 80 longValue (authstruct_init credBob)).password =
      longValue.take CRED_BUF_SIZE ∧
    (cstr (credentials_retr procLong (authstruct_init credBob)
        (some (bytes "credentials"))).2.1.username = longValue.take (CRED_BUF_SIZE - 1) ∧
      cstr (credentials_retr procLong (authstruct_init credBob)
        (some (bytes "credentials"))).2.1.password =
          (longValue.drop (CRED_BUF_SIZE - 1)).take (CRED_BUF_SIZE - 1) ∧
      (credentials_retr procLong (authstruct_init credBob)
        (some (bytes "credentials"))).1 = 1) ∧
    (cstr (credentials_retr procLongPassword (authstruct_init credBob)
        (some (bytes "credentials"))).2.1.password = longValue.take (CRED_BUF_SIZE - 1) ∧
      (credentials_retr procLongPassword (authstruct_init credBob)
        (some (bytes "credentials"))).1 = 1) ∧
    (credentials_retr procLong (authstruct_init credBob) none).2.1.common_name = longValue :=
  ⟨(C6_truncation procLong (authstruct_init credBob) longValue longValue_noNul
      (by rw [longValue_length]; decide) (authstruct_init_lengths credBob).1
      (authstruct_init_lengths credBob).2).1 rfl,
    (C6_truncation procLong (authstruct_init credBob) longValue longValue_noNul
      (by rw [longValue_length]; decide) (authstruct_init_lengths credBob).1
      (authstruct_init_lengths credBob).2).2.2.2.1,
    (C6_truncation procLong (authstruct_init credBob) longValue longValue_noNul
      (by rw [longValue_length]; decide) (authstruct_init_lengths credBob).1
      (authstruct_init_lengths credBob).2).2.2.2.2.2.1 (bytes "credentials")
      ⟨longValue ++ LF :: (longValue ++ [LF]), false⟩ (longValue ++ [LF])
      longValue_noLF rfl rfl,
    (C6_truncation procLongPassword (authstruct_init credBob) longValue longValue_noNul
      (by rw [longValue_length]; decide) (authstruct_init_lengths credBob).1
      (authstruct_init_lengths credBob).2).2.2.2.2.2.2.1 (bytes "credentials")
      ⟨bytes "bob" ++ LF :: (longValue ++ [LF]), false⟩ (bytes "bob") [LF]
      longValue_noLF rfl rfl (by decide) (by decide),
    (C6_truncation procLong (authstruct_init credBob) longValue longValue_noNul
      (by rw [longValue_length]; decide) (authstruct_init_lengths credBob).1
      (authstruct_init_lengths credBob).2).2.2.2.2.2.2.2.2.2.2.1 rfl⟩

/-! ## The configuration file -/

theorem isLine_spec (l : List Nat) (h : isLine l = true) :
    ∃ body, l = body ++ [LF] ∧ LF ∉ body ∧ body.length < GEN_BUF_SIZE - 1 := by
  unfold isLine at h
  simp only [Bool.and_eq_true, beq_iff_eq, Bool.not_eq_true', decide_eq_true_eq] at h
  obtain ⟨⟨hlast, hmem⟩, hlen⟩ := h
  have hl : l.dropLast ++ [LF] = l := List.dropLast_append_getLast? LF (by simp [hlast])
  refine ⟨l.dropLast, hl.symm, ?_, ?_⟩
  · intro hc
    have : l.dropLast.contains LF = true := by simpa using hc
    rw [this] at hmem
    exact Bool.noConfusion hmem
  · have := congrArg List.length hl
    simp only [List.length_append, List.length_singleton] at this
    omega

/-- `fgets` takes a whole line from the front of the stream and leaves what
follows it. -/
theorem fgets_line (l rest : List Nat) (err : Bool) (h : isLine l = true) :
    fgets GEN_BUF_SIZE ⟨l ++ rest, err⟩ = (some (l ++ [NUL]), ⟨rest, err⟩) := by
  obtain ⟨body, rfl, hb, hlen⟩ := isLine_spec l h
  have hl : fgetsBytes (GEN_BUF_SIZE - 1) (body ++ [LF] ++ rest) = body ++ [LF] := by
    rw [List.append_assoc]
    exact fgetsBytes_line body rest _ hb hlen
  unfold fgets
  simp only [hl]
  simp

theorem fgets_empty (n : Nat) (err : Bool) : (fgets n ⟨[], err⟩).1 = none :=
  fgets_none_of_empty n _ rfl

/-- The configuration a line leaves does not depend on the file name or on the
line counter. -/
theorem load_config_line_cfg (cfg : Config) (file buf : List Nat) (n : Nat) :
    (load_config_line cfg file buf n).1 = (load_config_line cfg [] buf 0).1 := by
  unfold load_config_line
  repeat' split
  all_goals rfl

/-- Reading a file made of whole lines applies the lines one after the other. -/
theorem load_config_loop_lines (lines : List (List Nat)) :
    ∀ (left : Nat) (file : List Nat) (err : Bool) (n : Nat) (cfg : Config),
      (∀ l ∈ lines, isLine l = true) → lines.length ≤ left →
      (load_config_loop left file ⟨lines.flatten, err⟩ n cfg).1 = lines.foldl lineEffect cfg := by
  induction lines with
  | nil =>
    intro left file err n cfg _ _
    cases left with
    | zero => rfl
    | succ left =>
      rw [load_config_loop]
      have h := fgets_empty GEN_BUF_SIZE err
      simp only [List.flatten_nil]
      cases hf : fgets GEN_BUF_SIZE ⟨[], err⟩ with
      | mk a b =>
        rw [hf] at h
        simp only at h
        subst h
        rfl
  | cons l ls ih =>
    intro left file err n cfg hl hleft
    cases left with
    | zero => simp at hleft
    | succ left =>
      have h1 : isLine l = true := hl l (List.mem_cons_self _ _)
      have h2 : ∀ x ∈ ls, isLine x = true := fun x hx => hl x (List.mem_cons_of_mem _ hx)
      rw [load_config_loop, List.flatten_cons, fgets_line l _ err h1]
      simp only [List.foldl_cons]
      rw [ih left file err (n + 1) _ h2 (by simpa using hleft), load_config_line_cfg]
      rfl

theorem atoi_cstr (s : List Nat) : atoi (cstr s) = atoi s := by
  unfold atoi
  rw [cstr_idem]

theorem strncpy_cstr (dst src : List Nat) (n : Nat) :
    strncpy dst (cstr src) n = strncpy dst src n := by
  unfold strncpy
  rw [cstr_idem]

/-- A source string shorter than `n` is copied whole and ended with a NUL,
whatever the destination held. -/
theorem cstr_strncpy_short (dst src : List Nat) (n : Nat) (h : strlen src < n) :
    cstr (strncpy dst src n) = cstr src := by
  unfold strlen at h
  unfold strncpy
  obtain ⟨k, hk⟩ : ∃ k, n - (cstr src).length = k + 1 := ⟨n - (cstr src).length - 1, by omega⟩
  rw [List.take_of_length_le (le_of_lt h), hk, List.replicate_succ, List.append_assoc,
    List.cons_append, cstr_append_nul, cstr_idem]

/-- A line that starts with a hash sign or with a line feed changes nothing and
logs nothing. -/
theorem load_config_line_ignored (cfg : Config) (file buf : List Nat) (n : Nat)
    (h : buf.headD NUL = 35 ∨ buf.headD NUL = LF) :
    load_config_line cfg file buf n = (cfg, []) := by
  have hp : config_get_param buf = none := by
    unfold config_get_param
    rcases h with h | h
    · split <;> rfl
    · rw [if_pos (Or.inr (Or.inl h))]
  unfold load_config_line
  rw [hp]

/-- What a line does, given the name and the value that `config_get_param` and
`config_get_value` find in it. -/
theorem load_config_line_of (cfg : Config) (file buf : List Nat) (n : Nat) (v w : List Nat)
    (hv : (config_get_param buf).map cstr = some v)
    (hw : (config_get_value buf).map cstr = some w) :
    load_config_line cfg file buf n =
      if v = bytes "hostname" then
        ({ cfg with hostname := strncpy cfg.hostname w GEN_BUF_SIZE }, [])
      else if v = bytes "port" then ({ cfg with port := atoi w }, [])
      else if v = bytes "timeout" then ({ cfg with timeout := atoi w }, [])
      else (cfg, [LogMsg.unknown_parameter v (cstr file) n]) := by
  have c1 : cstr (bytes "hostname") = bytes "hostname" := by decide
  have c2 : cstr (bytes "port") = bytes "port" := by decide
  have c3 : cstr (bytes "timeout") = bytes "timeout" := by decide
  cases hvar : config_get_param buf with
  | none => rw [hvar] at hv; simp at hv
  | some var =>
    cases hval : config_get_value buf with
    | none => rw [hval] at hw; simp at hw
    | some val =>
      rw [hvar] at hv
      rw [hval] at hw
      simp only [Option.map_some', Option.some.injEq] at hv hw
      subst hv
      subst hw
      unfold load_config_line
      simp only [hvar, hval, streq, c1, c2, c3, beq_iff_eq, strncpy_cstr, atoi_cstr]

theorem lineBuf_headD (l : List Nat) : (lineBuf l).headD NUL = l.headD NUL := by
  cases l <;> rfl

theorem lineEffect_ignored (cfg : Config) (l : List Nat) (h : isCommentOrEmpty l = true) :
    lineEffect cfg l = cfg := by
  unfold lineEffect
  rw [load_config_line_ignored]
  rw [lineBuf_headD]
  unfold isCommentOrEmpty at h
  simp only [Bool.or_eq_true, beq_iff_eq] at h
  rcases h with h | h
  · left
    cases l with
    | nil => simp at h
    | cons a t => simpa using h
  · right
    rw [h]
    rfl

theorem foldl_lineEffect_ignored (ls : List (List Nat)) (cfg : Config)
    (h : ∀ l ∈ ls, isCommentOrEmpty l = true) : ls.foldl lineEffect cfg = cfg := by
  induction ls with
  | nil => rfl
  | cons l ls ih =>
    rw [List.foldl_cons, lineEffect_ignored cfg l (h l (List.mem_cons_self _ _))]
    exact ih (fun x hx => h x (List.mem_cons_of_mem _ hx))

theorem lineEffect_hostname (cfg : Config) :
    lineEffect cfg (bytes "hostname = " ++ DEFAULT_HOSTNAME ++ bytes "\n") =
      { cfg with hostname := strncpy cfg.hostname DEFAULT_HOSTNAME GEN_BUF_SIZE } := by
  unfold lineEffect
  rw [load_config_line_of cfg [] _ 0 (bytes "hostname") DEFAULT_HOSTNAME (by decide) (by decide)]
  rfl

theorem lineEffect_port (cfg : Config) :
    lineEffect cfg (bytes "port = " ++ fmt_d DEFAULT_PORT ++ bytes "\n") =
      { cfg with port := DEFAULT_PORT } := by
  unfold lineEffect
  rw [load_config_line_of cfg [] _ 0 (bytes "port") (fmt_d DEFAULT_PORT) (by decide) (by decide),
    atoi_fmt_d]
  rfl

theorem lineEffect_timeout (cfg : Config) :
    lineEffect cfg (bytes "timeout = " ++ fmt_d DEFAULT_AUTH_TIMEOUT ++ bytes "\n") =
      { cfg with timeout := DEFAULT_AUTH_TIMEOUT } := by
  unfold lineEffect
  rw [load_config_line_of cfg [] _ 0 (bytes "timeout") (fmt_d DEFAULT_AUTH_TIMEOUT) (by decide)
    (by decide), atoi_fmt_d]
  rfl

/-- The lines of the sample configuration, grouped around its three settings. -/
theorem print_default_config_calls_split :
    print_default_config_calls =
      print_default_config_calls.take 12 ++
        (bytes "hostname = " ++ DEFAULT_HOSTNAME ++ bytes "\n") ::
          ((print_default_config_calls.drop 13).take 8 ++
            (bytes "port = " ++ fmt_d DEFAULT_PORT ++ bytes "\n") ::
              ((print_default_config_calls.drop 22).take 8 ++
                (bytes "timeout = " ++ fmt_d DEFAULT_AUTH_TIMEOUT ++ bytes "\n") ::
                  print_default_config_calls.drop 31)) := by
  rfl

/-- The configuration after all lines of the sample configuration. -/
theorem foldl_default_config (cfg : Config) :
    print_default_config_calls.foldl lineEffect cfg =
      { cfg with hostname := strncpy cfg.hostname DEFAULT_HOSTNAME GEN_BUF_SIZE,
                 port := DEFAULT_PORT, timeout := DEFAULT_AUTH_TIMEOUT } := by
  rw [print_default_config_calls_split]
  simp only [List.foldl_append, List.foldl_cons]
  rw [foldl_lineEffect_ignored _ _ (by decide), lineEffect_hostname,
    foldl_lineEffect_ignored _ _ (by decide), lineEffect_port,
    foldl_lineEffect_ignored _ _ (by decide), lineEffect_timeout,
    foldl_lineEffect_ignored _ _ (by decide)]

/-- C12: when the text printed by `print_default_config` is the configuration
file, `load_config_file` returns 1 and, whatever the configuration was before,
leaves the hostname 127.0.0.1, the port 1559 and the timeout 10 (and does not
touch `verbose`); every comment line and every empty line of the text is
ignored, and the three lines that are neither are the three settings. -/
theorem C12_default_config_round_trip (p : Proc) (cfg : Config) (name : List Nat) (err : Bool)
    (hopen : p.fopen name = some ⟨print_default_config, err⟩) :
    (load_config_file p cfg (some name)).1 = 1 ∧
    cstr (load_config_file p cfg (some name)).2.1.hostname = bytes "127.0.0.1" ∧
    (load_config_file p cfg (some name)).2.1.port = 1559 ∧
    (load_config_file p cfg (some name)).2.1.timeout = 10 ∧
    (load_config_file p cfg (some name)).2.1.verbose = cfg.verbose ∧
    (∀ l ∈ print_default_config_calls, isCommentOrEmpty l = true →
      ∀ (c : Config) (file : List Nat) (n : Nat),
        load_config_line c file (lineBuf l) n = (c, [])) ∧
    print_default_config_calls.filter (fun l => !isCommentOrEmpty l) =
      [bytes "hostname = 127.0.0.1\n", bytes "port = 1559\n", bytes "timeout = 10\n"] := by
  have hloop := load_config_loop_lines print_default_config_calls CONF_FILE_MAXLINES name err 0
    cfg (by decide) (by decide)
  rw [foldl_default_config] at hloop
  have hcfg : (load_config_file p cfg (some name)).2.1 =
      { cfg with hostname := strncpy cfg.hostname DEFAULT_HOSTNAME GEN_BUF_SIZE,
                 port := DEFAULT_PORT, timeout := DEFAULT_AUTH_TIMEOUT } := by
    unfold load_config_file
    simp only [hopen]
    exact hloop
  have hret : (load_config_file p cfg (some name)).1 = 1 := by
    unfold load_config_file
    simp only [hopen]
  refine ⟨hret, ?_, ?_, ?_, ?_, ?_, by decide⟩
  · rw [hcfg]
    exact cstr_strncpy_short _ _ _ (by decide)
  · rw [hcfg]; rfl
  · rw [hcfg]; rfl
  · rw [hcfg]
  · intro l _ hl c file n
    apply load_config_line_ignored
    rw [lineBuf_headD]
    unfold isCommentOrEmpty at hl
    simp only [Bool.or_eq_true, beq_iff_eq] at hl
    rcases hl with h | h
    · left
      cases l with
      | nil => simp at h
      | cons a t => simpa using h
    · right
      rw [h]
      rfl

theorem C12_default_config_round_trip_witness :
    (load_config_file procDefault cfgOther (some (bytes "/etc/openvpn_authc.conf"))).1 = 1 ∧
    cstr (load_config_file procDefault cfgOther
      (some (bytes "/etc/openvpn_authc.conf"))).2.1.hostname = bytes "127.0.0.1" ∧
    (load_config_file procDefault cfgOther (some (bytes "/etc/openvpn_authc.conf"))).2.1.port =
      1559 ∧
    (load_config_file procDefault cfgOther
      (some (bytes "/etc/openvpn_authc.conf"))).2.1.timeout = 10 :=
  have h := C12_default_config_round_trip procDefault cfgOther (bytes "/etc/openvpn_authc.conf")
    false rfl
  ⟨h.1, h.2.1, h.2.2.1, h.2.2.2.1⟩

/-- For every hostname that starts with a slash and is longer than 108 bytes,
the path handed to `connect` is the first 108 bytes of the hostname, which is
not the hostname, and no length is checked before. -/
theorem srv_connect_long_path (cfg : Config) (env : Env)
    (hslash : cfg.hostname.headD NUL = SLASH) (hlong : 108 < strlen cfg.hostname) :
    Sys.connect_unix env.socket ((cstr cfg.hostname).take 108) 110 ∈
        (srv_connect cfg env).trace ∧
      (cstr cfg.hostname).take 108 ≠ cstr cfg.hostname := by
  have hpath : strncpy (zeroed 108) cfg.hostname 108 = (cstr cfg.hostname).take 108 := by
    unfold strncpy strlen at *
    have h0 : 108 - (cstr cfg.hostname).length = 0 := by omega
    rw [h0]
    simp [zeroed]
  have hlen : strlen ((cstr cfg.hostname).take 108) = 108 := by
    unfold strlen at *
    rw [cstr_of_noNul _ (fun c hc => cstr_noNul _ c (List.mem_of_mem_take hc)),
      List.length_take]
    omega
  constructor
  · unfold srv_connect srv_connect_fdopen
    simp only [hslash, if_true, hpath, hlen]
    split <;> split <;> simp
  · intro h
    have := congrArg List.length h
    rw [List.length_take] at this
    unfold strlen at hlong
    omega

/-- C11, evaluated where the code departs from it: the hostname is a path of
109 bytes; `srv_connect` copies its first 108 bytes into `sun_path`, connects
to that other path and returns the stream. -/
theorem C11_long_path_truncated :
    cfgLongPath.hostname.headD NUL = SLASH ∧ strlen cfgLongPath.hostname = 109 ∧
    (srv_connect cfgLongPath (envReply [])).trace =
      [Sys.socket_unix, Sys.connect_unix 3 (SLASH :: List.replicate 107 97) 110,
        Sys.fdopen 3] ∧
    SLASH :: List.replicate 107 97 ≠ cstr cfgLongPath.hostname ∧
    (srv_connect cfgLongPath (envReply [])).sock = some 3 ∧
    (srv_connect cfgLongPath (envReply [])).log =
      [LogMsg.connecting_unix longPath] := by
  decide

end OpenvpnAuth
